import Mathlib

/-!
# Example.cpp: shape rasterisation

A shallow embedding of `src/Example.cpp` (Color, Shape, Circle, line, Polygon) and
theorems about it.

Modelling conventions.

* C++ `int` is `Int`; every statement is about runs without signed overflow.
* `DrawPixel(x, y, colour)` is an external sink. A `Draw` method is a function that
  returns the list of its `DrawPixel` calls in call order.
* A constructor that can throw returns `Except String _`.
* `for (int v = lo; v <= hi; ++v)` is `forInt lo hi`, which threads the loop state through
  the body and tests `v <= hi` before every iteration.
* `Polygon::Intersect` divides doubles and stores the quotient in an `int`. For a nonzero
  divisor the stored value is the quotient truncated toward zero (`Int.tdiv`): numerator and
  divisor are integers below `2^31`, so the rounded double quotient lies strictly between the
  same two integers as the exact one. For a zero divisor the quotient is `+inf`, `-inf` or
  `NaN`; what an `int` holds after that conversion is not fixed by the language, so it is a
  parameter (`IntConv`) of the model.
* `Polygon::CountDist(x, y, l) <= (double)BorderWidth` is compared in exact real arithmetic
  (`CountDistLe`).
* The section "Machine arithmetic" gives the same source lines in the arithmetic of the
  machine: `int` operations wrapped to 32 bits (`wrap32`) and IEEE binary64 `sqrt` and `/`
  (`round53`). Its definitions carry the suffix `32`; without overflow they agree with the
  exact ones for `Intersect` (`Intersect32_of_fits`), and for the border test up to the
  rounding of the double quotient (`IsBorder32_line_distance`).
-/

namespace Example

/-! ## Data model -/

/-- Source `struct Point`. -/
structure Point where
  x : Int
  y : Int
deriving DecidableEq, Repr

/-- Source `struct Segment`. -/
structure Segment where
  Point1 : Point
  Point2 : Point
deriving DecidableEq, Repr

/-- Source `class Color`: the stored channels. -/
structure Color where
  R : Int
  G : Int
  B : Int
deriving DecidableEq, Repr

def COLOR_MIN_VALUE : Int := 0

def COLOR_MAX_VALUE : Int := 255

/-- Source `Color::CheckColorValue`. -/
def CheckColorValue (value : Int) : Bool :=
  decide (value ≥ COLOR_MIN_VALUE) && decide (value ≤ COLOR_MAX_VALUE)

/-- Source constructor `Color::Color(int r, int g, int b)`. -/
def Color.new (r g b : Int) : Except String Color :=
  if !CheckColorValue r || !CheckColorValue g || !CheckColorValue b then
    .error "The color is not valid"
  else
    .ok ⟨r, g, b⟩

/-- Source `Color::GetTuple`. -/
def Color.GetTuple (c : Color) : Int × Int × Int := (c.R, c.G, c.B)

/-- One call `DrawPixel(x, y, color)`. -/
structure PixelCall where
  x : Int
  y : Int
  color : Int × Int × Int
deriving DecidableEq, Repr

/-- Source `class Shape`: the protected fields. -/
structure Shape where
  FillColor : Color
  BorderColor : Color
  BorderWidth : Int
  DisplayWidth : Int
  DisplayHeight : Int
  xStart : Int
  xEnd : Int
  yStart : Int
  yEnd : Int
deriving DecidableEq, Repr

/-! ## Loops -/

/-- The iterations of `for (int v = x; v <= hi; ++v) body`, at most `n` of them. -/
def forRange {σ : Type} (body : Int → σ → σ) : Nat → Int → Int → σ → σ
  | 0, _, _, s => s
  | n + 1, x, hi, s => if x ≤ hi then forRange body n (x + 1) hi (body x s) else s

/-- The loop `for (int v = lo; v <= hi; ++v) body`; `(hi + 1 - lo).toNat` is its trip count. -/
def forInt {σ : Type} (lo hi : Int) (body : Int → σ → σ) (s : σ) : σ :=
  forRange body (hi + 1 - lo).toNat lo hi s

/-! ## Circle -/

/-- Source `class Circle`. -/
structure Circle extends Shape where
  Center : Point
  Radius : Int
deriving DecidableEq, Repr

/-- Source constructor `Circle::Circle`. -/
def Circle.new (fillColor borderColor : Color) (borderWidth displayWidth displayHeight : Int)
    (center : Point) (radius : Int) : Circle :=
  { FillColor := fillColor
    BorderColor := borderColor
    BorderWidth := borderWidth
    DisplayWidth := displayWidth
    DisplayHeight := displayHeight
    Center := center
    Radius := radius
    xStart := max (center.x - radius) 0
    xEnd := min (center.x + radius) (displayWidth - 1)
    yStart := max (center.y - radius) 0
    yEnd := min (center.y + radius) displayHeight }

/-- The body of the inner loop of `Circle::Draw` at pixel `(x, y)`. -/
def Circle.drawPixelAt (c : Circle) (x y : Int) (out : List PixelCall) : List PixelCall :=
  if x * x + y * y ≤ c.Radius * c.Radius then
    if x * x + y * y ≤ (c.Radius - c.BorderWidth) * (c.Radius - c.BorderWidth) then
      out ++ [⟨x, y, c.FillColor.GetTuple⟩]
    else
      out ++ [⟨x, y, c.BorderColor.GetTuple⟩]
  else
    out

/-- Source `Circle::Draw`: the `DrawPixel` calls in call order. -/
def Circle.Draw (c : Circle) : List PixelCall :=
  forInt c.xStart c.xEnd
    (fun x out => forInt c.yStart c.yEnd (fun y out => c.drawPixelAt x y out) out) []

/-! ## line -/

/-- Source `class line`: coefficients of `A*x + B*y + C = 0`. -/
structure line where
  A : Int
  B : Int
  C : Int
deriving DecidableEq, Repr

/-- Source constructor `line::line(Point a, Point b)`. -/
def line.fromPoints (a b : Point) : line :=
  let A := a.y - b.y
  let B := b.x - a.x
  { A := A, B := B, C := -a.x * A - a.y * B }

/-- Source `line::operator==`. -/
def line.eq (l other : line) : Bool :=
  decide (l.A = other.A) && decide (l.B = other.B) && decide (l.C = other.C)

/-! ## Polygon -/

/-- Source `class Polygon`. -/
structure Polygon extends Shape where
  Edges : List Segment
deriving DecidableEq, Repr

/-- The four box fields while the constructor loop runs. -/
structure Box where
  xStart : Int
  xEnd : Int
  yStart : Int
  yEnd : Int
deriving DecidableEq, Repr

/-- The constructor loop `for (int i = 0; i < edges.size(); ++i)` of `Polygon::Polygon` from
index `i` on, at most `n` iterations: the closure check throws, otherwise the box grows by
`edges[i].Point1`. -/
def Polygon.scan (edges : List Segment) : Nat → Nat → Box → Except String Box
  | 0, _, b => .ok b
  | n + 1, i, b =>
    if h : i < edges.length then
      if (edges.get ⟨i, h⟩).Point2 ≠
          (edges.get ⟨(i + 1) % edges.length,
            Nat.mod_lt _ (Nat.lt_of_le_of_lt (Nat.zero_le i) h)⟩).Point1 then
        .error "The polygon is not valid"
      else
        Polygon.scan edges n (i + 1)
          { xStart := min b.xStart (edges.get ⟨i, h⟩).Point1.x
            xEnd := max b.xEnd (edges.get ⟨i, h⟩).Point1.x
            yStart := min b.yStart (edges.get ⟨i, h⟩).Point1.y
            yEnd := max b.yEnd (edges.get ⟨i, h⟩).Point1.y }
    else
      .ok b

/-- Source constructor `Polygon::Polygon`. -/
def Polygon.new (fillColor borderColor : Color) (borderWidth displayWidth displayHeight : Int)
    (edges : List Segment) : Except String Polygon :=
  match Polygon.scan edges edges.length 0 ⟨displayWidth, 0, displayHeight, 0⟩ with
  | .error e => .error e
  | .ok b =>
    .ok
      { FillColor := fillColor
        BorderColor := borderColor
        BorderWidth := borderWidth
        DisplayWidth := displayWidth
        DisplayHeight := displayHeight
        Edges := edges
        xStart := max b.xStart 0
        xEnd := min b.xEnd (displayWidth - 1)
        yStart := max b.yStart 0
        yEnd := min b.yEnd (displayHeight - 1) }

/-- Source `Polygon::Det`; the value is an integer stored in a double. -/
def Det (a b c d : Int) : Int := a * d - b * c

/-- What an `int` holds after a non-finite double is converted to it. -/
structure IntConv where
  posInf : Int
  negInf : Int
  nan : Int
deriving DecidableEq, Repr

/-- The x86-64 conversion (`cvttsd2si`): every non-finite double gives `INT_MIN`. -/
def x86 : IntConv := ⟨-2147483648, -2147483648, -2147483648⟩

/-- The AArch64 conversion (`fcvtzs`): saturating, and `NaN` gives `0`. -/
def aarch64 : IntConv := ⟨2147483647, -2147483648, 0⟩

/-- The `int` stored by `intVar = num / zn` for integer-valued doubles `num` and `zn`. -/
def quotToInt (cv : IntConv) (num zn : Int) : Int :=
  if zn = 0 then
    if 0 < num then cv.posInf else if num < 0 then cv.negInf else cv.nan
  else
    Int.tdiv num zn

/-- Source `Polygon::Intersect`. -/
def Intersect (cv : IntConv) (x y : Int) (line1 : line) (Point1 Point2 : Point) : Bool :=
  let line2 := line.fromPoints Point1 Point2
  if line1.eq line2 then
    false
  else
    let zn := Det line1.A line1.B line2.A line2.B
    if |zn| < 0 then
      false
    else
      let resx := quotToInt cv (-Det line1.C line1.B line2.C line2.B) zn
      let resy := quotToInt cv (-Det line1.A line1.C line2.A line2.C) zn
      if !(decide (resx ≥ Point1.x) && decide (resx ≤ Point2.x) &&
          decide (resy ≥ Point1.y) && decide (resy ≤ Point2.y)) then
        false
      else if !((decide (resx > x) == decide (Point2.x > x)) &&
          (decide (resy > y) == decide (Point2.y > y))) then
        false
      else
        true

/-- The crossing counter `cnt` of `Polygon::InPolygon` after the loop over the edges. -/
def crossings (cv : IntConv) (edges : List Segment) (x y : Int) : Int :=
  let line1 : line := ⟨0, 1, -y⟩
  edges.foldl
    (fun cnt edge => if Intersect cv x y line1 edge.Point1 edge.Point2 then cnt + 1 else cnt) 0

/-- Source `Polygon::InPolygon`. -/
def Polygon.InPolygon (cv : IntConv) (p : Polygon) (x y : Int) : Bool :=
  crossings cv p.Edges x y % 2 != 0

/-- The test `CountDist(x, y, l) <= (double)w` of `Polygon::IsBorder`, where
`CountDist = |A*x + B*y + C| / sqrt(A*A + B*B)`. With `A = B = 0` the quotient is `NaN` or
`+inf` and the test fails; otherwise `n / sqrt s <= w` holds exactly when `0 <= w` and
`n*n <= w*w*s`. -/
def CountDistLe (x y : Int) (l : line) (w : Int) : Bool :=
  let n := |l.A * x + l.B * y + l.C|
  let s := l.A * l.A + l.B * l.B
  if s = 0 then false else decide (0 ≤ w) && decide (n * n ≤ w * w * s)

/-- The loop of `Polygon::IsBorder` over the edges, with its early return. -/
def isBorderLoop (w x y : Int) : List Segment → Bool
  | [] => false
  | edge :: rest =>
    if CountDistLe x y (line.fromPoints edge.Point1 edge.Point2) w then true
    else isBorderLoop w x y rest

/-- Source `Polygon::IsBorder`. -/
def Polygon.IsBorder (p : Polygon) (x y : Int) : Bool :=
  isBorderLoop p.BorderWidth x y p.Edges

/-- The body of the inner loop of `Polygon::Draw` at pixel `(x, y)`. -/
def Polygon.drawPixelAt (cv : IntConv) (p : Polygon) (x y : Int) (out : List PixelCall) :
    List PixelCall :=
  if p.InPolygon cv x y then
    if p.IsBorder x y then
      out ++ [⟨x, y, p.BorderColor.GetTuple⟩]
    else
      out ++ [⟨x, y, p.FillColor.GetTuple⟩]
  else
    out

/-- Source `Polygon::Draw`: the `DrawPixel` calls in call order. -/
def Polygon.Draw (cv : IntConv) (p : Polygon) : List PixelCall :=
  forInt p.xStart p.xEnd
    (fun x out => forInt p.yStart p.yEnd (fun y out => p.drawPixelAt cv x y out) out) []

/-! ## The square of the specification -/

/-- The square `(0,0) -> (10,0) -> (10,10) -> (0,10) -> (0,0)`. -/
def squareEdges : List Segment :=
  [⟨⟨0, 0⟩, ⟨10, 0⟩⟩, ⟨⟨10, 0⟩, ⟨10, 10⟩⟩, ⟨⟨10, 10⟩, ⟨0, 10⟩⟩, ⟨⟨0, 10⟩, ⟨0, 0⟩⟩]

/-- The square on a 20 x 20 canvas with border width 1, red fill and black border, as the
constructor builds it (`squarePolygon_constructed`). -/
def squarePolygon : Polygon :=
  { FillColor := ⟨255, 0, 0⟩
    BorderColor := ⟨0, 0, 0⟩
    BorderWidth := 1
    DisplayWidth := 20
    DisplayHeight := 20
    xStart := 0
    xEnd := 10
    yStart := 0
    yEnd := 10
    Edges := squareEdges }

/-- A circle that covers a 5 x 5 canvas: centre `(2,2)`, radius 5, border width 1. -/
def coveringCircle : Circle := Circle.new ⟨255, 0, 0⟩ ⟨0, 0, 0⟩ 1 5 5 ⟨2, 2⟩ 5

/-- A circle inside a 20 x 20 canvas: centre `(5,5)`, radius 3, border width 1. -/
def innerCircle : Circle := Circle.new ⟨255, 0, 0⟩ ⟨0, 0, 0⟩ 1 20 20 ⟨5, 5⟩ 3

/-- A circle inside a 20 x 20 canvas: centre `(1,1)`, radius 1, border width 0. -/
def unitCircle : Circle := Circle.new ⟨255, 0, 0⟩ ⟨0, 0, 0⟩ 0 20 20 ⟨1, 1⟩ 1

/-! ## Specification-side definitions -/

/-- The integers `lo, lo + 1, ..., hi` in increasing order (empty when `hi < lo`). -/
def intRange (lo hi : Int) : List Int :=
  (List.range (hi + 1 - lo).toNat).map (fun (k : Nat) => lo + (k : Int))

/-- The pixels of the box in x-major, then y order. -/
def scanOrder (xStart xEnd yStart yEnd : Int) : List (Int × Int) :=
  (intRange xStart xEnd).flatMap (fun x => (intRange yStart yEnd).map (fun y => (x, y)))

/-- The rasterisation rule in the specification's words: over the box in x-major then y
order, keep the pixels that are in the polygon, and give each the border colour when it is a
border pixel and the fill colour otherwise. -/
def Polygon.DrawSpec (cv : IntConv) (p : Polygon) : List PixelCall :=
  ((scanOrder p.xStart p.xEnd p.yStart p.yEnd).filter (fun q => p.InPolygon cv q.1 q.2)).map
    (fun q =>
      ⟨q.1, q.2, if p.IsBorder q.1 q.2 then p.BorderColor.GetTuple else p.FillColor.GetTuple⟩)

/-! ## Auxiliary definitions -/

/-- The calls `Circle::Draw` makes at pixel `(x, y)`: none or one. -/
def Circle.callsAt (c : Circle) (x y : Int) : List PixelCall :=
  c.drawPixelAt x y []

/-- The calls `Polygon::Draw` makes at pixel `(x, y)`: none or one. -/
def Polygon.callsAt (cv : IntConv) (p : Polygon) (x y : Int) : List PixelCall :=
  p.drawPixelAt cv x y []

/-- Edge `i` does not end where the cyclically next edge starts:
`edges[i].Point2 != edges[(i + 1) % n].Point1`. -/
def brokenAt (edges : List Segment) (i : Nat) : Prop :=
  ∃ a b, edges[i]? = some a ∧ edges[(i + 1) % edges.length]? = some b ∧ a.Point2 ≠ b.Point1

/-- One box update of the constructor loop. -/
def Box.grow (b : Box) (e : Segment) : Box :=
  { xStart := min b.xStart e.Point1.x
    xEnd := max b.xEnd e.Point1.x
    yStart := min b.yStart e.Point1.y
    yEnd := max b.yEnd e.Point1.y }

/-- The divisor `zn` with which `Polygon::Intersect` reaches its two divisions, or `none` when
it returns before them (at `line1 == line2` or at `abs(zn) < 0`). -/
def IntersectDivisor (line1 : line) (Point1 Point2 : Point) : Option Int :=
  let line2 := line.fromPoints Point1 Point2
  if line1.eq line2 then
    none
  else
    let zn := Det line1.A line1.B line2.A line2.B
    if |zn| < 0 then none else some zn

/-- The point `res` that `Polygon::Intersect` computes by Cramer's rule. -/
def IntersectRes (cv : IntConv) (line1 : line) (Point1 Point2 : Point) : Point :=
  let line2 := line.fromPoints Point1 Point2
  let zn := Det line1.A line1.B line2.A line2.B
  { x := quotToInt cv (-Det line1.C line1.B line2.C line2.B) zn
    y := quotToInt cv (-Det line1.A line1.C line2.A line2.C) zn }

/-- The coordinates of a `DrawPixel` call. -/
def PixelCall.coord (px : PixelCall) : Int × Int := (px.x, px.y)

/-- An edge traversed the other way. -/
def Segment.reversed (e : Segment) : Segment := ⟨e.Point2, e.Point1⟩

/-- The same loop traversed in the opposite direction: the edges in reverse order, each with
`Point1` and `Point2` swapped. -/
def reverseLoop (edges : List Segment) : List Segment :=
  edges.reverse.map Segment.reversed

/-- An edge that `Polygon::Intersect` can accept: `Point1 <= Point2` in both coordinates. -/
def Segment.ascending (e : Segment) : Bool :=
  decide (e.Point1.x ≤ e.Point2.x) && decide (e.Point1.y ≤ e.Point2.y)

/-- The two-edge loop `(0,0) -> (3,3) -> (0,0)`, a polygon of zero area. -/
def sliverEdges : List Segment := [⟨⟨0, 0⟩, ⟨3, 3⟩⟩, ⟨⟨3, 3⟩, ⟨0, 0⟩⟩]

/-- The two-edge loop on a 10 x 10 canvas with border width 1, as the constructor builds it. -/
def sliverPolygon : Polygon :=
  { FillColor := ⟨255, 0, 0⟩
    BorderColor := ⟨0, 0, 0⟩
    BorderWidth := 1
    DisplayWidth := 10
    DisplayHeight := 10
    xStart := 0
    xEnd := 3
    yStart := 0
    yEnd := 3
    Edges := sliverEdges }

/-- A closed triangle `(0,0) -> (4,0) -> (0,4) -> (0,0)`. -/
def triangleEdges : List Segment :=
  [⟨⟨0, 0⟩, ⟨4, 0⟩⟩, ⟨⟨4, 0⟩, ⟨0, 4⟩⟩, ⟨⟨0, 4⟩, ⟨0, 0⟩⟩]

/-! ## Machine arithmetic

The definitions above compute in exact integers. The definitions of this section follow the
same source lines in the arithmetic of the machine: every `int` operation wraps to 32 bits
(what the hardware gives for the overflow that the language leaves undefined), and `sqrt` and
`/` on doubles round to nearest, ties to even, at 53 significant bits. -/

/-- The value a 32-bit `int` holds after an operation whose exact result is `v`:
two's-complement wrap-around. -/
def wrap32 (v : Int) : Int := (v + 2147483648) % 4294967296 - 2147483648

/-- The exact result `v` is an `int` value, so the 32-bit operation gives `v` itself. -/
def fits32 (v : Int) : Bool := decide (-2147483648 ≤ v) && decide (v ≤ 2147483647)

/-- Source constructor `line::line(Point a, Point b)` in 32-bit `int` arithmetic. -/
def line.fromPoints32 (a b : Point) : line :=
  let A := wrap32 (a.y - b.y)
  let B := wrap32 (b.x - a.x)
  { A := A, B := B, C := wrap32 (wrap32 (wrap32 (-a.x) * A) - wrap32 (a.y * B)) }

/-- Source `Polygon::Det` in 32-bit `int` arithmetic; the `int` result becomes a double. -/
def Det32 (a b c d : Int) : Int := wrap32 (wrap32 (a * d) - wrap32 (b * c))

/-- The `int` stored by `intVar = num / zn` for integer-valued doubles `num`, `zn` with
`|num| <= 2^31`: a quotient above `INT_MAX` converts like `+inf`. -/
def quotToInt32 (cv : IntConv) (num zn : Int) : Int :=
  if zn = 0 then
    if 0 < num then cv.posInf else if num < 0 then cv.negInf else cv.nan
  else if Int.tdiv num zn > 2147483647 then cv.posInf
  else Int.tdiv num zn

/-- Source `Polygon::Intersect` in 32-bit `int` arithmetic. -/
def Intersect32 (cv : IntConv) (x y : Int) (line1 : line) (Point1 Point2 : Point) : Bool :=
  let line2 := line.fromPoints32 Point1 Point2
  if line1.eq line2 then
    false
  else
    let zn := Det32 line1.A line1.B line2.A line2.B
    if |zn| < 0 then
      false
    else
      let resx := quotToInt32 cv (-Det32 line1.C line1.B line2.C line2.B) zn
      let resy := quotToInt32 cv (-Det32 line1.A line1.C line2.A line2.C) zn
      if !(decide (resx ≥ Point1.x) && decide (resx ≤ Point2.x) &&
          decide (resy ≥ Point1.y) && decide (resy ≤ Point2.y)) then
        false
      else if !((decide (resx > x) == decide (Point2.x > x)) &&
          (decide (resy > y) == decide (Point2.y > y))) then
        false
      else
        true

/-- The counter `cnt` of `Polygon::InPolygon` in 32-bit `int` arithmetic. -/
def crossings32 (cv : IntConv) (edges : List Segment) (x y : Int) : Int :=
  let line1 : line := ⟨0, 1, wrap32 (-y)⟩
  edges.foldl
    (fun cnt edge => if Intersect32 cv x y line1 edge.Point1 edge.Point2 then cnt + 1 else cnt) 0

/-- Source `Polygon::InPolygon` in 32-bit `int` arithmetic. -/
def Polygon.InPolygon32 (cv : IntConv) (p : Polygon) (x y : Int) : Bool :=
  crossings32 cv p.Edges x y % 2 != 0

/-- The integer square root `floor(sqrt n)`, found bit by bit from bit `b - 1` down. -/
def isqrtBits (n : Nat) : Nat → Nat → Nat
  | 0, r => r
  | b + 1, r =>
    if (r + 2 ^ b) * (r + 2 ^ b) ≤ n then isqrtBits n b (r + 2 ^ b) else isqrtBits n b r

/-- The number of binary digits of `n` (at most `fuel` of them). -/
def bitLen : Nat → Nat → Nat
  | 0, _ => 0
  | fuel + 1, n => if n = 0 then 0 else bitLen fuel (n / 2) + 1

/-- Rounding to a double (53 significant bits, round to nearest, ties to even) of a positive
real given in some unit as `t` exactly (`sticky = false`) or as a value strictly between `t`
and `t + 1` (`sticky = true`), for `2^54 <= t < 2^256`. The result is in the same unit. -/
def round53 (t : Nat) (sticky : Bool) : Nat :=
  let sh := bitLen 256 t - 53
  let m := t / 2 ^ sh
  let rem := t % 2 ^ sh
  let half := 2 ^ (sh - 1)
  if rem > half ∨ (rem = half ∧ (sticky = true ∨ m % 2 = 1)) then (m + 1) * 2 ^ sh
  else m * 2 ^ sh

/-- The double `sqrt((double)s)` for an `int` `s >= 1`, in units of `2^-60`. -/
def sqrtDouble (s : Nat) : Nat :=
  let t := isqrtBits (s * 2 ^ 120) 76 0
  round53 t (decide (t * t ≠ s * 2 ^ 120))

/-- The double `(double)n / d` for an `int` `n >= 1` and a double `d > 0` given in units of
`2^-60`; the result is in units of `2^-80`. -/
def divDouble (n d : Nat) : Nat :=
  round53 (n * 2 ^ 140 / d) (decide (n * 2 ^ 140 % d ≠ 0))

/-- The test `(double)a / sqrt((double)s) <= (double)w` on `int` values `a`, `s`, `w`: `sqrt`
of a negative number is `NaN`, which fails every comparison, and a division by `0.0` gives
`NaN` or an infinity. -/
def doubleQuotLe (a s w : Int) : Bool :=
  if s < 0 then false
  else if s = 0 then decide (a < 0)
  else if a = 0 then decide (0 ≤ w)
  else if a < 0 then
    decide (-(divDouble a.natAbs (sqrtDouble s.toNat) : Int) ≤ w * 2 ^ 80)
  else decide ((divDouble a.natAbs (sqrtDouble s.toNat) : Int) ≤ w * 2 ^ 80)

/-- The test `CountDist(x, y, l) <= (double)w` of `Polygon::IsBorder` in 32-bit `int` and
double arithmetic. -/
def CountDistLe32 (x y : Int) (l : line) (w : Int) : Bool :=
  let a := wrap32 |wrap32 (wrap32 (wrap32 (l.A * x) + wrap32 (l.B * y)) + l.C)|
  let s := wrap32 (wrap32 (l.A * l.A) + wrap32 (l.B * l.B))
  doubleQuotLe a s w

/-- The loop of `Polygon::IsBorder` over the edges in 32-bit `int` and double arithmetic. -/
def isBorderLoop32 (w x y : Int) : List Segment → Bool
  | [] => false
  | edge :: rest =>
    if CountDistLe32 x y (line.fromPoints32 edge.Point1 edge.Point2) w then true
    else isBorderLoop32 w x y rest

/-- Source `Polygon::IsBorder` in 32-bit `int` and double arithmetic. -/
def Polygon.IsBorder32 (p : Polygon) (x y : Int) : Bool :=
  isBorderLoop32 p.BorderWidth x y p.Edges

/-- The body of the inner loop of `Polygon::Draw` at pixel `(x, y)`, in machine arithmetic. -/
def Polygon.drawPixelAt32 (cv : IntConv) (p : Polygon) (x y : Int) (out : List PixelCall) :
    List PixelCall :=
  if p.InPolygon32 cv x y then
    if p.IsBorder32 x y then
      out ++ [⟨x, y, p.BorderColor.GetTuple⟩]
    else
      out ++ [⟨x, y, p.FillColor.GetTuple⟩]
  else
    out

/-- Source `Polygon::Draw` in machine arithmetic: the `DrawPixel` calls in call order. -/
def Polygon.Draw32 (cv : IntConv) (p : Polygon) : List PixelCall :=
  forInt p.xStart p.xEnd
    (fun x out => forInt p.yStart p.yEnd (fun y out => p.drawPixelAt32 cv x y out) out) []

/-- The calls `Polygon::Draw` makes at pixel `(x, y)` in machine arithmetic: none or one. -/
def Polygon.callsAt32 (cv : IntConv) (p : Polygon) (x y : Int) : List PixelCall :=
  p.drawPixelAt32 cv x y []

/-- No `int` operation of `Intersect(x, y, line(0, 1, -y), Point1, Point2)` overflows: `-y`,
every operation of `line(Point1, Point2)`, every operation of the three `Det` calls, and the
two quotients lie in the `int` range. -/
def IntersectFits (y : Int) (Point1 Point2 : Point) : Bool :=
  let l := line.fromPoints Point1 Point2
  fits32 (-y) && fits32 (Point1.y - Point2.y) && fits32 (Point2.x - Point1.x) &&
    fits32 (-Point1.x) && fits32 (-Point1.x * l.A) && fits32 (Point1.y * l.B) && fits32 l.C &&
    fits32 (0 - 1 * l.A) &&
    fits32 (-y * l.B) && fits32 (-y * l.B - 1 * l.C) && fits32 (-(-y * l.B - 1 * l.C)) &&
    fits32 (-y * l.A) && fits32 (0 - -y * l.A) && fits32 (-(0 - -y * l.A))

/-- The two-edge loop `(0,-50000) -> (85850,50) -> (0,-50000)`. -/
def wideLoopEdges : List Segment :=
  [⟨⟨0, -50000⟩, ⟨85850, 50⟩⟩, ⟨⟨85850, 50⟩, ⟨0, -50000⟩⟩]

/-- The loop `wideLoopEdges` on a 100000 x 100 canvas, as the constructor builds it. -/
def wideLoop : Polygon :=
  { FillColor := ⟨255, 0, 0⟩
    BorderColor := ⟨0, 0, 0⟩
    BorderWidth := 1
    DisplayWidth := 100000
    DisplayHeight := 100
    xStart := 0
    xEnd := 85850
    yStart := 0
    yEnd := 50
    Edges := wideLoopEdges }

/-- The triangle `(0,7759) -> (43778,0) -> (0,0) -> (0,7759)`. -/
def thinTriangleEdges : List Segment :=
  [⟨⟨0, 7759⟩, ⟨43778, 0⟩⟩, ⟨⟨43778, 0⟩, ⟨0, 0⟩⟩, ⟨⟨0, 0⟩, ⟨0, 7759⟩⟩]

/-- The triangle `thinTriangleEdges` with border width 1680 on a 50000 x 10000 canvas, as the
constructor builds it. -/
def thinTriangle : Polygon :=
  { FillColor := ⟨255, 0, 0⟩
    BorderColor := ⟨0, 0, 0⟩
    BorderWidth := 1680
    DisplayWidth := 50000
    DisplayHeight := 10000
    xStart := 0
    xEnd := 43778
    yStart := 0
    yEnd := 7759
    Edges := thinTriangleEdges }

theorem mem_intRange (lo hi v : Int) : v ∈ intRange lo hi ↔ lo ≤ v ∧ v ≤ hi := by
  unfold intRange
  simp only [List.mem_map, List.mem_range]
  constructor
  · rintro ⟨k, hk, rfl⟩
    omega
  · rintro ⟨h1, h2⟩
    exact ⟨(v - lo).toNat, by omega, by omega⟩

theorem forRange_append {α : Type} (body : Int → List α → List α) (g : Int → List α)
    (hbody : ∀ v s, body v s = s ++ g v) (hi : Int) :
    ∀ (n : Nat) (x : Int) (s : List α), (hi + 1 - x).toNat = n →
      forRange body n x hi s = s ++ ((List.range n).map (fun (k : Nat) => x + (k : Int))).flatMap g := by
  intro n
  induction n with
  | zero => intro x s _; simp [forRange]
  | succ n ih =>
    intro x s hn
    have hx : x ≤ hi := by omega
    have hn1 : (hi + 1 - (x + 1)).toNat = n := by omega
    rw [forRange, if_pos hx, ih (x + 1) (body x s) hn1, hbody, List.range_succ_eq_map]
    simp only [List.map_cons, List.map_map, List.flatMap_cons, List.append_assoc]
    have hmap : List.map ((fun (k : Nat) => x + (k : Int)) ∘ Nat.succ) (List.range n) =
        List.map (fun (k : Nat) => x + 1 + (k : Int)) (List.range n) := by
      apply List.map_congr_left
      intro k _
      simp only [Function.comp_apply, Nat.succ_eq_add_one, Nat.cast_add, Nat.cast_one]
      ring
    rw [hmap]
    simp

theorem forInt_append {α : Type} (body : Int → List α → List α) (g : Int → List α)
    (hbody : ∀ v s, body v s = s ++ g v) (lo hi : Int) (s : List α) :
    forInt lo hi body s = s ++ (intRange lo hi).flatMap g :=
  forRange_append body g hbody hi _ lo s rfl

/-! ## Circle::Draw and Polygon::Draw as scans -/

theorem Circle.circle_drawPixelAt_append (c : Circle) (x y : Int) (out : List PixelCall) :
    c.drawPixelAt x y out = out ++ c.callsAt x y := by
  unfold Circle.callsAt Circle.drawPixelAt
  split_ifs <;> simp

theorem Polygon.drawPixelAt_append (cv : IntConv) (p : Polygon) (x y : Int)
    (out : List PixelCall) : p.drawPixelAt cv x y out = out ++ p.callsAt cv x y := by
  unfold Polygon.callsAt Polygon.drawPixelAt
  split_ifs <;> simp

theorem Circle.circle_Draw_eq (c : Circle) :
    c.Draw = (intRange c.xStart c.xEnd).flatMap
      (fun x => (intRange c.yStart c.yEnd).flatMap (fun y => c.callsAt x y)) := by
  unfold Circle.Draw
  rw [forInt_append _ (fun x => (intRange c.yStart c.yEnd).flatMap (fun y => c.callsAt x y))]
  · simp
  · intro x s
    exact forInt_append _ _ (fun y out => c.circle_drawPixelAt_append x y out) _ _ s

theorem Polygon.Draw_eq (cv : IntConv) (p : Polygon) :
    p.Draw cv = (intRange p.xStart p.xEnd).flatMap
      (fun x => (intRange p.yStart p.yEnd).flatMap (fun y => p.callsAt cv x y)) := by
  unfold Polygon.Draw
  rw [forInt_append _ (fun x => (intRange p.yStart p.yEnd).flatMap (fun y => p.callsAt cv x y))]
  · simp
  · intro x s
    exact forInt_append _ _ (fun y out => p.drawPixelAt_append cv x y out) _ _ s

theorem Circle.mem_circle_callsAt (c : Circle) (x y : Int) (px : PixelCall) :
    px ∈ c.callsAt x y ↔
      px.x = x ∧ px.y = y ∧ x * x + y * y ≤ c.Radius * c.Radius ∧
        px.color =
          if x * x + y * y ≤ (c.Radius - c.BorderWidth) * (c.Radius - c.BorderWidth) then
            c.FillColor.GetTuple
          else c.BorderColor.GetTuple := by
  unfold Circle.callsAt Circle.drawPixelAt
  rcases px with ⟨a, b, col⟩
  split_ifs <;> simp_all

theorem Polygon.mem_callsAt (cv : IntConv) (p : Polygon) (x y : Int) (px : PixelCall) :
    px ∈ p.callsAt cv x y ↔
      px.x = x ∧ px.y = y ∧ p.InPolygon cv x y = true ∧
        px.color =
          if p.IsBorder x y then p.BorderColor.GetTuple else p.FillColor.GetTuple := by
  unfold Polygon.callsAt Polygon.drawPixelAt
  rcases px with ⟨a, b, col⟩
  split_ifs <;> simp_all

/-- A call of `Circle::Draw`: a box pixel that passes the radius test, with its colour. -/
theorem Circle.mem_circle_Draw (c : Circle) (px : PixelCall) :
    px ∈ c.Draw ↔
      (c.xStart ≤ px.x ∧ px.x ≤ c.xEnd) ∧ (c.yStart ≤ px.y ∧ px.y ≤ c.yEnd) ∧
        px.x * px.x + px.y * px.y ≤ c.Radius * c.Radius ∧
        px.color =
          if px.x * px.x + px.y * px.y ≤
              (c.Radius - c.BorderWidth) * (c.Radius - c.BorderWidth) then
            c.FillColor.GetTuple
          else c.BorderColor.GetTuple := by
  rw [Circle.circle_Draw_eq]
  simp only [List.mem_flatMap, mem_intRange, Circle.mem_circle_callsAt]
  constructor
  · rintro ⟨x, hx, y, hy, rfl, rfl, h⟩
    exact ⟨hx, hy, h⟩
  · rintro ⟨hx, hy, h⟩
    exact ⟨px.x, hx, px.y, hy, rfl, rfl, h⟩

/-- A call of `Polygon::Draw`: a box pixel that is in the polygon, with its colour. -/
theorem Polygon.mem_Draw (cv : IntConv) (p : Polygon) (px : PixelCall) :
    px ∈ p.Draw cv ↔
      (p.xStart ≤ px.x ∧ px.x ≤ p.xEnd) ∧ (p.yStart ≤ px.y ∧ px.y ≤ p.yEnd) ∧
        p.InPolygon cv px.x px.y = true ∧
        px.color =
          if p.IsBorder px.x px.y then p.BorderColor.GetTuple else p.FillColor.GetTuple := by
  rw [Polygon.Draw_eq]
  simp only [List.mem_flatMap, mem_intRange, Polygon.mem_callsAt]
  constructor
  · rintro ⟨x, hx, y, hy, rfl, rfl, h⟩
    exact ⟨hx, hy, h⟩
  · rintro ⟨hx, hy, h⟩
    exact ⟨px.x, hx, px.y, hy, rfl, rfl, h⟩

theorem filter_map_eq_flatMap {α β : Type} (f : α → Bool) (g : α → β) (h : α → List β)
    (hh : ∀ a, h a = if f a then [g a] else []) (l : List α) :
    (l.filter f).map g = l.flatMap h := by
  induction l with
  | nil => simp
  | cons a l ih =>
    rw [List.flatMap_cons, hh a, ← ih]
    cases hfa : f a <;> simp [List.filter_cons, hfa]

theorem Polygon.callsAt_eq (cv : IntConv) (p : Polygon) (x y : Int) :
    p.callsAt cv x y =
      if p.InPolygon cv x y then
        [⟨x, y, if p.IsBorder x y then p.BorderColor.GetTuple else p.FillColor.GetTuple⟩]
      else [] := by
  unfold Polygon.callsAt Polygon.drawPixelAt
  split_ifs <;> simp

/-! ## The border test in real arithmetic -/

/-- The integer test `CountDistLe` is the comparison
`|A*x + B*y + C| / sqrt(A*A + B*B) <= w` over the reals, for a line with `A`, `B` not both 0. -/
theorem CountDistLe_iff_real (x y : Int) (l : line) (w : Int) :
    CountDistLe x y l w = true ↔
      l.A * l.A + l.B * l.B ≠ 0 ∧
        ((|l.A * x + l.B * y + l.C| : Int) : ℝ) / Real.sqrt ((l.A * l.A + l.B * l.B : Int) : ℝ) ≤
          (w : ℝ) := by
  unfold CountDistLe
  simp only
  by_cases hs : l.A * l.A + l.B * l.B = 0
  · simp [hs]
  · have hs0 : 0 < l.A * l.A + l.B * l.B := by
      have h1 := mul_self_nonneg l.A
      have h2 := mul_self_nonneg l.B
      omega
    have hsR : (0 : ℝ) < ((l.A * l.A + l.B * l.B : Int) : ℝ) := by exact_mod_cast hs0
    have hr : 0 < Real.sqrt ((l.A * l.A + l.B * l.B : Int) : ℝ) := Real.sqrt_pos.2 hsR
    have hrr : Real.sqrt ((l.A * l.A + l.B * l.B : Int) : ℝ) *
        Real.sqrt ((l.A * l.A + l.B * l.B : Int) : ℝ) = ((l.A * l.A + l.B * l.B : Int) : ℝ) :=
      Real.mul_self_sqrt hsR.le
    have hn : (0 : ℝ) ≤ ((|l.A * x + l.B * y + l.C| : Int) : ℝ) := by
      exact_mod_cast abs_nonneg (l.A * x + l.B * y + l.C)
    rw [if_neg hs, div_le_iff₀ hr]
    simp only [Bool.and_eq_true, decide_eq_true_eq, ne_eq, hs, not_false_eq_true, true_and]
    generalize Real.sqrt ((l.A * l.A + l.B * l.B : Int) : ℝ) = r at hr hrr
    generalize |l.A * x + l.B * y + l.C| = n at hn
    generalize l.A * l.A + l.B * l.B = s at hrr hsR
    constructor
    · rintro ⟨hw, hle⟩
      have hwR : (0 : ℝ) ≤ (w : ℝ) := by exact_mod_cast hw
      have hleR : (n : ℝ) * n ≤ w * w * s := by exact_mod_cast hle
      by_contra hlt
      push_neg at hlt
      have h1 : (w : ℝ) * r * (w * r) < n * n :=
        mul_self_lt_mul_self (mul_nonneg hwR hr.le) hlt
      have h2 : (w : ℝ) * r * (w * r) = w * w * s := by rw [← hrr]; ring
      linarith
    · intro hle
      have hwR : (0 : ℝ) ≤ (w : ℝ) := by
        by_contra hneg
        push_neg at hneg
        have := mul_neg_of_neg_of_pos hneg hr
        linarith
      refine ⟨by exact_mod_cast hwR, ?_⟩
      have h1 : (n : ℝ) * n ≤ w * r * (w * r) := mul_self_le_mul_self hn hle
      have h2 : (w : ℝ) * r * (w * r) = w * w * s := by rw [← hrr]; ring
      have h3 : (n : ℝ) * n ≤ w * w * s := by linarith
      exact_mod_cast h3

/-! ## Color -/

/-- C4. For all integers `r`, `g`, `b`, `Color(r, g, b)` is constructed (holding exactly these
channels) if and only if each channel lies in `[0, 255]`, and throws if and only if one does
not; so `Color(0,0,0)` succeeds and `Color(256,0,0)`, `Color(-1,5,5)` throw. -/
theorem Color_new_succeeds_iff (r g b : Int) :
    (Color.new r g b = .ok ⟨r, g, b⟩ ↔
        (0 ≤ r ∧ r ≤ 255) ∧ (0 ≤ g ∧ g ≤ 255) ∧ (0 ≤ b ∧ b ≤ 255)) ∧
      (Color.new r g b = .error "The color is not valid" ↔
        ¬((0 ≤ r ∧ r ≤ 255) ∧ (0 ≤ g ∧ g ≤ 255) ∧ (0 ≤ b ∧ b ≤ 255))) ∧
      Color.new 0 0 0 = .ok ⟨0, 0, 0⟩ ∧
      Color.new 256 0 0 = .error "The color is not valid" ∧
      Color.new (-1) 5 5 = .error "The color is not valid" := by
  refine ⟨?_, ?_, rfl, rfl, rfl⟩
  · unfold Color.new CheckColorValue COLOR_MIN_VALUE COLOR_MAX_VALUE
    by_cases h : (0 ≤ r ∧ r ≤ 255) ∧ (0 ≤ g ∧ g ≤ 255) ∧ (0 ≤ b ∧ b ≤ 255)
    · obtain ⟨⟨h1, h2⟩, ⟨h3, h4⟩, h5, h6⟩ := h
      simp [h1, h2, h3, h4, h5, h6]
    · simp only [h, iff_false]
      split_ifs with hc
      · simp
      · exfalso
        apply h
        simpa [not_or, and_assoc] using hc
  · unfold Color.new CheckColorValue COLOR_MIN_VALUE COLOR_MAX_VALUE
    by_cases h : (0 ≤ r ∧ r ≤ 255) ∧ (0 ≤ g ∧ g ≤ 255) ∧ (0 ≤ b ∧ b ≤ 255)
    · obtain ⟨⟨h1, h2⟩, ⟨h3, h4⟩, h5, h6⟩ := h
      simp [h1, h2, h3, h4, h5, h6]
    · simp only [h, not_false_eq_true, iff_true]
      split_ifs with hc
      · rfl
      · exfalso
        apply h
        simpa [not_or, and_assoc] using hc

/-! ## Polygon::Draw against the rasterisation rule -/

/-- C2. For every polygon value (in particular every successfully constructed one), the
sequence of `DrawPixel` calls of `Polygon::Draw` is exactly the specification's scan: over
`xStart..xEnd`, then `yStart..yEnd`, the pixels with `InPolygon` true, each with the border
colour when `IsBorder` is true and the fill colour otherwise, and no call for the others. -/
theorem Polygon_Draw_eq_DrawSpec (cv : IntConv) (p : Polygon) :
    p.Draw cv = p.DrawSpec cv := by
  rw [Polygon.Draw_eq]
  unfold Polygon.DrawSpec scanOrder
  rw [filter_map_eq_flatMap (fun q : Int × Int => p.InPolygon cv q.1 q.2)
    (fun q : Int × Int => (⟨q.1, q.2,
      if p.IsBorder q.1 q.2 then p.BorderColor.GetTuple else p.FillColor.GetTuple⟩ : PixelCall))
    (fun q => p.callsAt cv q.1 q.2) (fun q => p.callsAt_eq cv q.1 q.2)]
  simp only [List.flatMap_assoc, List.flatMap_map]

/-- C8. Every `DrawPixel(x, y, _)` call of `Circle::Draw` and of `Polygon::Draw` has
`xStart <= x <= xEnd` and `yStart <= y <= yEnd` for the box stored in the shape. -/
theorem Draw_calls_inside_box (cv : IntConv) (c : Circle) (p : Polygon) :
    (∀ px ∈ c.Draw,
        (c.xStart ≤ px.x ∧ px.x ≤ c.xEnd) ∧ (c.yStart ≤ px.y ∧ px.y ≤ c.yEnd)) ∧
      (∀ px ∈ p.Draw cv,
        (p.xStart ≤ px.x ∧ px.x ≤ p.xEnd) ∧ (p.yStart ≤ px.y ∧ px.y ≤ p.yEnd)) := by
  constructor
  · intro px hpx
    have h := (c.mem_circle_Draw px).1 hpx
    exact ⟨h.1, h.2.1⟩
  · intro px hpx
    have h := (p.mem_Draw cv px).1 hpx
    exact ⟨h.1, h.2.1⟩

/-! ## The constructor loop of Polygon -/

theorem brokenAt_iff (edges : List Segment) (i : Nat) (h : i < edges.length) :
    brokenAt edges i ↔
      (edges.get ⟨i, h⟩).Point2 ≠
        (edges.get ⟨(i + 1) % edges.length,
          Nat.mod_lt _ (Nat.lt_of_le_of_lt (Nat.zero_le i) h)⟩).Point1 := by
  have h2 : (i + 1) % edges.length < edges.length :=
    Nat.mod_lt _ (Nat.lt_of_le_of_lt (Nat.zero_le i) h)
  unfold brokenAt
  simp only [List.getElem?_eq_getElem h, List.getElem?_eq_getElem h2, Option.some.injEq,
    List.get_eq_getElem]
  constructor
  · rintro ⟨a, b, rfl, rfl, hne⟩
    exact hne
  · intro hne
    exact ⟨_, _, rfl, rfl, hne⟩

theorem brokenAt_lt (edges : List Segment) (i : Nat) (h : brokenAt edges i) :
    i < edges.length := by
  obtain ⟨a, b, ha, _, _⟩ := h
  by_contra hn
  rw [List.getElem?_eq_none (Nat.le_of_not_lt hn)] at ha
  exact Option.noConfusion ha

/-- The loop throws exactly when one of the indices it visits is broken. -/
theorem Polygon.scan_error_iff (edges : List Segment) :
    ∀ (n i : Nat) (b : Box),
      (∃ msg, Polygon.scan edges n i b = .error msg) ↔
        ∃ j, i ≤ j ∧ j < i + n ∧ brokenAt edges j := by
  intro n
  induction n with
  | zero =>
    intro i b
    simp only [Polygon.scan]
    constructor
    · rintro ⟨msg, h⟩
      exact Except.noConfusion h
    · rintro ⟨j, h1, h2, _⟩
      omega
  | succ n ih =>
    intro i b
    rw [Polygon.scan]
    by_cases h : i < edges.length
    · rw [dif_pos h]
      by_cases hb : (edges.get ⟨i, h⟩).Point2 ≠
          (edges.get ⟨(i + 1) % edges.length,
            Nat.mod_lt _ (Nat.lt_of_le_of_lt (Nat.zero_le i) h)⟩).Point1
      · rw [if_pos hb]
        constructor
        · intro _
          exact ⟨i, le_refl i, by omega, (brokenAt_iff edges i h).2 hb⟩
        · intro _
          exact ⟨_, rfl⟩
      · rw [if_neg hb, ih]
        constructor
        · rintro ⟨j, h1, h2, h3⟩
          exact ⟨j, by omega, by omega, h3⟩
        · rintro ⟨j, h1, h2, h3⟩
          have hji : j ≠ i := by
            rintro rfl
            exact hb ((brokenAt_iff edges j h).1 h3)
          exact ⟨j, by omega, by omega, h3⟩
    · rw [dif_neg h]
      constructor
      · rintro ⟨msg, hm⟩
        exact Except.noConfusion hm
      · rintro ⟨j, h1, _, h3⟩
        have := brokenAt_lt edges j h3
        omega

/-- When the loop does not throw, the box it returns is the fold of the box update over the
edges it visited. -/
theorem Polygon.scan_ok (edges : List Segment) :
    ∀ (n i : Nat) (b b' : Box), edges.length ≤ i + n →
      Polygon.scan edges n i b = .ok b' → b' = (edges.drop i).foldl Box.grow b := by
  intro n
  induction n with
  | zero =>
    intro i b b' hlen h
    simp only [Polygon.scan, Except.ok.injEq] at h
    rw [List.drop_eq_nil_of_le (by omega)]
    exact h.symm
  | succ n ih =>
    intro i b b' hlen h
    rw [Polygon.scan] at h
    by_cases hi : i < edges.length
    · rw [dif_pos hi] at h
      split_ifs at h with hb
      have := ih (i + 1) _ b' (by omega) h
      rw [this, List.drop_eq_getElem_cons hi, List.foldl_cons]
      rfl
    · rw [dif_neg hi] at h
      simp only [Except.ok.injEq] at h
      rw [List.drop_eq_nil_of_le (by omega)]
      exact h.symm

theorem foldl_grow (l : List Segment) (b : Box) :
    l.foldl Box.grow b =
      { xStart := (l.map (fun e => e.Point1.x)).foldl min b.xStart
        xEnd := (l.map (fun e => e.Point1.x)).foldl max b.xEnd
        yStart := (l.map (fun e => e.Point1.y)).foldl min b.yStart
        yEnd := (l.map (fun e => e.Point1.y)).foldl max b.yEnd } := by
  induction l generalizing b with
  | nil => rfl
  | cons e l ih => simp only [List.foldl_cons, List.map_cons, ih, Box.grow]

theorem foldl_min_absorb (l : List Int) (a : Int) (hle : ∀ v ∈ l, a ≤ v) :
    l.foldl min a = a := by
  induction l with
  | nil => rfl
  | cons w l ih =>
    rw [List.foldl_cons, min_eq_left (hle w (List.mem_cons_self _ _))]
    exact ih (fun v hv => hle v (List.mem_cons_of_mem _ hv))

theorem foldl_max_absorb (l : List Int) (a : Int) (hle : ∀ v ∈ l, v ≤ a) :
    l.foldl max a = a := by
  induction l with
  | nil => rfl
  | cons w l ih =>
    rw [List.foldl_cons, max_eq_left (hle w (List.mem_cons_self _ _))]
    exact ih (fun v hv => hle v (List.mem_cons_of_mem _ hv))

theorem foldl_min_least (l : List Int) (a m : Int) (hm : m ∈ l) (hle : ∀ v ∈ l, m ≤ v) :
    l.foldl min a = min a m := by
  induction l generalizing a with
  | nil => simp at hm
  | cons v l ih =>
    rw [List.foldl_cons]
    have hl : ∀ w ∈ l, m ≤ w := fun w hw => hle w (List.mem_cons_of_mem _ hw)
    rcases List.mem_cons.1 hm with h | h
    · subst h
      exact foldl_min_absorb l _ (fun w hw => le_trans (min_le_right _ _) (hl w hw))
    · rw [ih (min a v) h hl]
      have := hle v (List.mem_cons_self _ _)
      omega

theorem foldl_max_greatest (l : List Int) (a m : Int) (hm : m ∈ l) (hle : ∀ v ∈ l, v ≤ m) :
    l.foldl max a = max a m := by
  induction l generalizing a with
  | nil => simp at hm
  | cons v l ih =>
    rw [List.foldl_cons]
    have hl : ∀ w ∈ l, w ≤ m := fun w hw => hle w (List.mem_cons_of_mem _ hw)
    rcases List.mem_cons.1 hm with h | h
    · subst h
      exact foldl_max_absorb l _ (fun w hw => le_trans (hl w hw) (le_max_right _ _))
    · rw [ih (max a v) h hl]
      have := hle v (List.mem_cons_self _ _)
      omega

/-- The constructor throws exactly when its loop throws. -/
theorem Polygon.new_error_iff (fc bc : Color) (w W H : Int) (edges : List Segment) :
    (∃ msg, Polygon.new fc bc w W H edges = .error msg) ↔
      ∃ msg, Polygon.scan edges edges.length 0 ⟨W, 0, H, 0⟩ = .error msg := by
  unfold Polygon.new
  cases Polygon.scan edges edges.length 0 ⟨W, 0, H, 0⟩ with
  | error e => simp
  | ok b => simp

/-- A constructed polygon stores the clamped box of its loop and the edge list. -/
theorem Polygon.new_ok (fc bc : Color) (w W H : Int) (edges : List Segment) (p : Polygon)
    (h : Polygon.new fc bc w W H edges = .ok p) :
    ∃ b, Polygon.scan edges edges.length 0 ⟨W, 0, H, 0⟩ = .ok b ∧
      p.xStart = max b.xStart 0 ∧ p.xEnd = min b.xEnd (W - 1) ∧
      p.yStart = max b.yStart 0 ∧ p.yEnd = min b.yEnd (H - 1) ∧
      p.Edges = edges ∧ p.BorderWidth = w ∧ p.FillColor = fc ∧ p.BorderColor = bc ∧
      p.DisplayWidth = W ∧ p.DisplayHeight = H := by
  unfold Polygon.new at h
  cases hs : Polygon.scan edges edges.length 0 ⟨W, 0, H, 0⟩ with
  | error e => rw [hs] at h; exact Except.noConfusion h
  | ok b =>
    rw [hs] at h
    simp only [Except.ok.injEq] at h
    subst h
    exact ⟨b, rfl, rfl, rfl, rfl, rfl, rfl, rfl, rfl, rfl, rfl, rfl⟩

theorem Polygon.new_total (fc bc : Color) (w W H : Int) (edges : List Segment) :
    (∃ msg, Polygon.new fc bc w W H edges = .error msg) ∨
      ∃ p, Polygon.new fc bc w W H edges = .ok p := by
  cases h : Polygon.new fc bc w W H edges with
  | error e => exact Or.inl ⟨e, rfl⟩
  | ok p => exact Or.inr ⟨p, rfl⟩

/-- C3. For every edge list (of length `n >= 1`, and the empty one as well), constructing a
Polygon throws if and only if some index `i` in `[0, n)` has
`edges[i].Point2 != edges[(i + 1) mod n].Point1`; otherwise the construction succeeds. -/
theorem Polygon_new_throws_iff_chain_broken (fc bc : Color) (w W H : Int)
    (edges : List Segment) :
    ((∃ msg, Polygon.new fc bc w W H edges = .error msg) ↔
        ∃ i, i < edges.length ∧ brokenAt edges i) ∧
      ((∃ p, Polygon.new fc bc w W H edges = .ok p) ↔
        ¬∃ i, i < edges.length ∧ brokenAt edges i) := by
  have herr : (∃ msg, Polygon.new fc bc w W H edges = .error msg) ↔
      ∃ i, i < edges.length ∧ brokenAt edges i := by
    rw [Polygon.new_error_iff, Polygon.scan_error_iff]
    constructor
    · rintro ⟨j, _, h2, h3⟩
      exact ⟨j, by omega, h3⟩
    · rintro ⟨j, h2, h3⟩
      exact ⟨j, Nat.zero_le j, by omega, h3⟩
  refine ⟨herr, ?_⟩
  rw [← herr]
  constructor
  · rintro ⟨p, hp⟩ ⟨msg, hmsg⟩
    rw [hp] at hmsg
    exact Except.noConfusion hmsg
  · intro hno
    rcases Polygon.new_total fc bc w W H edges with h | h
    · exact absurd h hno
    · exact h

/-- In a constructed polygon every edge ends where some edge starts. -/
theorem Polygon.new_ok_closed (fc bc : Color) (w W H : Int) (edges : List Segment)
    (p : Polygon) (h : Polygon.new fc bc w W H edges = .ok p) (e : Segment) (he : e ∈ edges) :
    ∃ e2 ∈ edges, e.Point2 = e2.Point1 := by
  obtain ⟨j, hj, rfl⟩ := List.getElem_of_mem he
  have h2 : (j + 1) % edges.length < edges.length :=
    Nat.mod_lt _ (Nat.lt_of_le_of_lt (Nat.zero_le j) hj)
  refine ⟨edges[(j + 1) % edges.length], List.getElem_mem h2, ?_⟩
  by_contra hne
  have hbr : brokenAt edges j := (brokenAt_iff edges j hj).2 hne
  have herr : ∃ msg, Polygon.new fc bc w W H edges = .error msg :=
    (Polygon.new_error_iff fc bc w W H edges).2
      ((Polygon.scan_error_iff edges _ _ _).2 ⟨j, Nat.zero_le j, by omega, hbr⟩)
  obtain ⟨msg, hmsg⟩ := herr
  rw [h] at hmsg
  exact Except.noConfusion hmsg

theorem clamp_lower (lo W m x : Int) (h : lo = max (min W m) 0) (hm : m ≤ x) (h0 : 0 ≤ x) :
    lo ≤ x := by
  omega

theorem clamp_upper (hi W M x : Int) (h : hi = min (max 0 M) (W - 1)) (hM : x ≤ M)
    (hW : x < W) : x ≤ hi := by
  omega

/-- C7. When the constructor accepts an edge list whose start points have least and greatest
coordinates `mx`, `Mx`, `my`, `My` (so the list is non-empty), it stores
`xStart = max(0, min(displayWidth, mx))`, `xEnd = min(displayWidth - 1, max(0, Mx))`, the same
for y with `displayHeight`, and every edge end point (`Point1` or `Point2`) that lies on the
canvas lies in the stored box. -/
theorem Polygon_new_bounding_box (fc bc : Color) (w W H : Int) (edges : List Segment)
    (p : Polygon) (mx Mx my My : Int)
    (hok : Polygon.new fc bc w W H edges = .ok p)
    (hmx : (∃ e ∈ edges, e.Point1.x = mx) ∧ ∀ e ∈ edges, mx ≤ e.Point1.x)
    (hMx : (∃ e ∈ edges, e.Point1.x = Mx) ∧ ∀ e ∈ edges, e.Point1.x ≤ Mx)
    (hmy : (∃ e ∈ edges, e.Point1.y = my) ∧ ∀ e ∈ edges, my ≤ e.Point1.y)
    (hMy : (∃ e ∈ edges, e.Point1.y = My) ∧ ∀ e ∈ edges, e.Point1.y ≤ My) :
    (p.xStart = max 0 (min W mx) ∧ p.xEnd = min (W - 1) (max 0 Mx) ∧
        p.yStart = max 0 (min H my) ∧ p.yEnd = min (H - 1) (max 0 My)) ∧
      ∀ e ∈ edges, ∀ q : Point, q = e.Point1 ∨ q = e.Point2 →
        0 ≤ q.x ∧ q.x < W ∧ 0 ≤ q.y ∧ q.y < H →
          (p.xStart ≤ q.x ∧ q.x ≤ p.xEnd) ∧ (p.yStart ≤ q.y ∧ q.y ≤ p.yEnd) := by
  obtain ⟨b, hscan, hxs, hxe, hys, hye, -⟩ := Polygon.new_ok fc bc w W H edges p hok
  have hb := Polygon.scan_ok edges _ _ _ b (by omega) hscan
  rw [List.drop_zero, foldl_grow] at hb
  have h1 : b.xStart = min W mx := by
    rw [hb]
    apply foldl_min_least
    · obtain ⟨e, he, rfl⟩ := hmx.1
      exact List.mem_map.2 ⟨e, he, rfl⟩
    · intro v hv
      obtain ⟨e, he, rfl⟩ := List.mem_map.1 hv
      exact hmx.2 e he
  have h2 : b.xEnd = max 0 Mx := by
    rw [hb]
    apply foldl_max_greatest
    · obtain ⟨e, he, rfl⟩ := hMx.1
      exact List.mem_map.2 ⟨e, he, rfl⟩
    · intro v hv
      obtain ⟨e, he, rfl⟩ := List.mem_map.1 hv
      exact hMx.2 e he
  have h3 : b.yStart = min H my := by
    rw [hb]
    apply foldl_min_least
    · obtain ⟨e, he, rfl⟩ := hmy.1
      exact List.mem_map.2 ⟨e, he, rfl⟩
    · intro v hv
      obtain ⟨e, he, rfl⟩ := List.mem_map.1 hv
      exact hmy.2 e he
  have h4 : b.yEnd = max 0 My := by
    rw [hb]
    apply foldl_max_greatest
    · obtain ⟨e, he, rfl⟩ := hMy.1
      exact List.mem_map.2 ⟨e, he, rfl⟩
    · intro v hv
      obtain ⟨e, he, rfl⟩ := List.mem_map.1 hv
      exact hMy.2 e he
  rw [h1] at hxs
  rw [h2] at hxe
  rw [h3] at hys
  rw [h4] at hye
  have hstart : ∀ e ∈ edges, 0 ≤ e.Point1.x ∧ e.Point1.x < W ∧ 0 ≤ e.Point1.y ∧ e.Point1.y < H →
      (p.xStart ≤ e.Point1.x ∧ e.Point1.x ≤ p.xEnd) ∧
        (p.yStart ≤ e.Point1.y ∧ e.Point1.y ≤ p.yEnd) := by
    intro e he hin
    exact ⟨⟨clamp_lower _ _ _ _ hxs (hmx.2 e he) hin.1,
        clamp_upper _ _ _ _ hxe (hMx.2 e he) hin.2.1⟩,
      clamp_lower _ _ _ _ hys (hmy.2 e he) hin.2.2.1,
      clamp_upper _ _ _ _ hye (hMy.2 e he) hin.2.2.2⟩
  refine ⟨⟨?_, ?_, ?_, ?_⟩, ?_⟩
  · rw [hxs, max_comm]
  · rw [hxe, min_comm]
  · rw [hys, max_comm]
  · rw [hye, min_comm]
  intro e he q hq hin
  rcases hq with rfl | rfl
  · exact hstart e he hin
  · obtain ⟨e2, he2, heq⟩ := Polygon.new_ok_closed fc bc w W H edges p hok e he
    rw [heq] at hin ⊢
    exact hstart e2 he2 hin

theorem squarePolygon_constructed :
    Polygon.new ⟨255, 0, 0⟩ ⟨0, 0, 0⟩ 1 20 20 squareEdges = .ok squarePolygon := rfl

/-- Witness of C7 on the square: least and greatest start coordinates are 0 and 10, the stored
box is `[0,10] x [0,10]`, and it holds every edge end point. -/
theorem Polygon_new_bounding_box_square :
    (squarePolygon.xStart = max 0 (min 20 0) ∧ squarePolygon.xEnd = min (20 - 1) (max 0 10) ∧
        squarePolygon.yStart = max 0 (min 20 0) ∧
        squarePolygon.yEnd = min (20 - 1) (max 0 10)) ∧
      ∀ e ∈ squareEdges, ∀ q : Point, q = e.Point1 ∨ q = e.Point2 →
        0 ≤ q.x ∧ q.x < 20 ∧ 0 ≤ q.y ∧ q.y < 20 →
          (squarePolygon.xStart ≤ q.x ∧ q.x ≤ squarePolygon.xEnd) ∧
            (squarePolygon.yStart ≤ q.y ∧ q.y ≤ squarePolygon.yEnd) :=
  Polygon_new_bounding_box ⟨255, 0, 0⟩ ⟨0, 0, 0⟩ 1 20 20 squareEdges squarePolygon 0 10 0 10
    rfl (by decide) (by decide) (by decide) (by decide)

/-! ## Ray casting on the square -/

/-- C1, on the code. The constructor accepts the square, and `InPolygon(5,5)` is false on it:
the two vertical edges are not counted (the crossing has `res.y = y = 5`, which the side test
compares with `Point2.y`), and the two horizontal edges divide by `zn = 0`. The test is true
only if the conversion of `NaN` gives 0 and that of `+inf` gives a value in `[6,10]`; with the
x86-64 and the AArch64 conversions no edge is counted. -/
theorem square_centre_InPolygon (cv : IntConv) :
    Polygon.new ⟨255, 0, 0⟩ ⟨0, 0, 0⟩ 1 20 20 squareEdges = .ok squarePolygon ∧
      (squarePolygon.InPolygon cv 5 5 = true ↔
        cv.nan = 0 ∧ 6 ≤ cv.posInf ∧ cv.posInf ≤ 10) ∧
      Intersect cv 5 5 ⟨0, 1, -5⟩ ⟨10, 0⟩ ⟨10, 10⟩ = false ∧
      Intersect cv 5 5 ⟨0, 1, -5⟩ ⟨0, 10⟩ ⟨0, 0⟩ = false ∧
      crossings x86 squareEdges 5 5 = 0 ∧ crossings aarch64 squareEdges 5 5 = 0 ∧
      squarePolygon.InPolygon x86 5 5 = false ∧ squarePolygon.InPolygon aarch64 5 5 = false := by
  refine ⟨rfl, ?_, rfl, rfl, by decide, by decide, by decide, by decide⟩
  have t1 : Int.tdiv 50 10 = 5 := by decide
  have t2 : Int.tdiv 100 10 = 10 := by decide
  simp only [Polygon.InPolygon, squarePolygon]
  simp [crossings, squareEdges, Intersect, line.fromPoints, line.eq, Det, quotToInt, t1, t2]
  split_ifs <;> omega

/-- No conversion makes an edge of the square count at the pixel `(5,0)`. -/
theorem square_crossings_bottom (cv : IntConv) : crossings cv squareEdges 5 0 = 0 := by
  simp [crossings, squareEdges, Intersect, line.fromPoints, line.eq, Det, quotToInt]
  split_ifs <;> omega

/-- C6, on the code. However the square is constructed (any colours, border width and canvas)
and whatever the conversion, `Polygon::Draw` makes no call at the pixel `(5,0)`, which lies on
the edge `(0,0)->(10,0)`: `InPolygon(5,0)` is false there. -/
theorem square_edge_pixel_not_drawn (cv : IntConv) (fc bc : Color) (w W H : Int) (p : Polygon)
    (hok : Polygon.new fc bc w W H squareEdges = .ok p) :
    p.InPolygon cv 5 0 = false ∧ ∀ px ∈ p.Draw cv, ¬(px.x = 5 ∧ px.y = 0) := by
  obtain ⟨b, -, -, -, -, -, hedges, -⟩ := Polygon.new_ok fc bc w W H squareEdges p hok
  have hin : p.InPolygon cv 5 0 = false := by
    simp [Polygon.InPolygon, hedges, square_crossings_bottom]
  refine ⟨hin, ?_⟩
  rintro px hpx ⟨hx, hy⟩
  have h := ((p.mem_Draw cv px).1 hpx).2.2.1
  rw [hx, hy, hin] at h
  exact Bool.noConfusion h

/-- Witness of C6 on the square with border width 1 on a 20 x 20 canvas. -/
theorem square_edge_pixel_not_drawn_x86 :
    squarePolygon.InPolygon x86 5 0 = false ∧
      ∀ px ∈ squarePolygon.Draw x86, ¬(px.x = 5 ∧ px.y = 0) :=
  square_edge_pixel_not_drawn x86 ⟨255, 0, 0⟩ ⟨0, 0, 0⟩ 1 20 20 squarePolygon rfl

set_option maxRecDepth 100000 in
/-- With the x86-64 conversion `Polygon::Draw` colours only the row `y = 10` of the square,
every pixel of it with the border colour. -/
theorem squarePolygon_Draw_x86 :
    squarePolygon.Draw x86 =
      [⟨0, 10, (0, 0, 0)⟩, ⟨1, 10, (0, 0, 0)⟩, ⟨2, 10, (0, 0, 0)⟩, ⟨3, 10, (0, 0, 0)⟩,
        ⟨4, 10, (0, 0, 0)⟩, ⟨5, 10, (0, 0, 0)⟩, ⟨6, 10, (0, 0, 0)⟩, ⟨7, 10, (0, 0, 0)⟩,
        ⟨8, 10, (0, 0, 0)⟩, ⟨9, 10, (0, 0, 0)⟩, ⟨10, 10, (0, 0, 0)⟩] := by
  decide

/-! ## Canvas bounds -/

/-- Every call of `Polygon::Draw` on a constructed polygon is on the canvas. -/
theorem Polygon.Draw_on_canvas (cv : IntConv) (fc bc : Color) (w W H : Int)
    (edges : List Segment) (p : Polygon) (hok : Polygon.new fc bc w W H edges = .ok p) :
    ∀ px ∈ p.Draw cv, (0 ≤ px.x ∧ px.x < W) ∧ (0 ≤ px.y ∧ px.y < H) := by
  obtain ⟨b, -, hxs, hxe, hys, hye, -⟩ := Polygon.new_ok fc bc w W H edges p hok
  intro px hpx
  have h := (p.mem_Draw cv px).1 hpx
  omega

/-- Every call of `Circle::Draw` has `0 <= x < DisplayWidth` and `0 <= y <= DisplayHeight`. -/
theorem Circle.Draw_near_canvas (fc bc : Color) (w W H : Int) (center : Point) (radius : Int) :
    ∀ px ∈ (Circle.new fc bc w W H center radius).Draw,
      (0 ≤ px.x ∧ px.x < W) ∧ (0 ≤ px.y ∧ px.y ≤ H) := by
  intro px hpx
  have h := ((Circle.new fc bc w W H center radius).mem_circle_Draw px).1 hpx
  simp only [Circle.new] at h
  omega

/-- C5, on the code. The circle of radius 5 centred at `(2,2)` on a 5 x 5 canvas has
`yEnd = 5 = DisplayHeight`, and `Circle::Draw` calls `DrawPixel(0, 5, BorderColor)`, whose `y`
is not below `DisplayHeight`. -/
theorem Circle_Draw_leaves_canvas :
    coveringCircle.DisplayHeight = 5 ∧ coveringCircle.yEnd = 5 ∧
      (⟨0, 5, (0, 0, 0)⟩ : PixelCall) ∈ coveringCircle.Draw := by
  decide

/-! ## Circle::Draw tests the distance from the origin -/

/-- C9, on the code. For the circle of radius 3 and border width 1 centred at `(5,5)`,
`Circle::Draw` makes exactly one call, `DrawPixel(2, 2, BorderColor)`: the centre pixel
`(5,5)` (`d^2 = 0`) gets no colour and the pixel `(2,2)` (`d^2 = 18 > 9`) is coloured. -/
theorem Circle_Draw_ring_off_centre :
    innerCircle.Draw = [⟨2, 2, (0, 0, 0)⟩] ∧
      (innerCircle.xStart ≤ 5 ∧ 5 ≤ innerCircle.xEnd ∧
        innerCircle.yStart ≤ 5 ∧ 5 ≤ innerCircle.yEnd) ∧
      ∀ px ∈ innerCircle.Draw, ¬(px.x = 5 ∧ px.y = 5) := by
  decide

/-- C10, on the code. For the circle of radius 1 centred at `(1,1)`, whose box `[0,2] x [0,2]`
is on the canvas, `Circle::Draw` colours `(0,1)` and not its mirror image `(2,1)`. -/
theorem Circle_Draw_not_symmetric :
    unitCircle.Draw = [⟨0, 0, (255, 0, 0)⟩, ⟨0, 1, (255, 0, 0)⟩, ⟨1, 0, (255, 0, 0)⟩] ∧
      (∃ px ∈ unitCircle.Draw, px.x = 1 - 1 ∧ px.y = 1 + 0) ∧
      ¬∃ px ∈ unitCircle.Draw, px.x = 1 + 1 ∧ px.y = 1 + 0 := by
  decide

/-! ## Polygon::Intersect: divisor and intersection point -/

theorem guards_eq_and (c s : Bool) :
    (if (!c) = true then false else if (!s) = true then false else true) = (c && s) := by
  cases c <;> cases s <;> rfl

/-- `Polygon::Intersect` in terms of its divisor and its point `res`. -/
theorem Intersect_eq_res (cv : IntConv) (x y : Int) (line1 : line) (Point1 Point2 : Point) :
    Intersect cv x y line1 Point1 Point2 =
      match IntersectDivisor line1 Point1 Point2 with
      | none => false
      | some _ =>
        (decide ((IntersectRes cv line1 Point1 Point2).x ≥ Point1.x) &&
          decide ((IntersectRes cv line1 Point1 Point2).x ≤ Point2.x) &&
          decide ((IntersectRes cv line1 Point1 Point2).y ≥ Point1.y) &&
          decide ((IntersectRes cv line1 Point1 Point2).y ≤ Point2.y)) &&
        ((decide ((IntersectRes cv line1 Point1 Point2).x > x) == decide (Point2.x > x)) &&
          (decide ((IntersectRes cv line1 Point1 Point2).y > y) == decide (Point2.y > y))) := by
  unfold Intersect IntersectDivisor
  have h2 : ¬ |Det line1.A line1.B (line.fromPoints Point1 Point2).A
      (line.fromPoints Point1 Point2).B| < 0 := not_lt.2 (abs_nonneg _)
  by_cases h1 : line1.eq (line.fromPoints Point1 Point2) = true
  · simp [h1]
  · simp only [h1, Bool.false_eq_true, if_false, h2]
    exact guards_eq_and _ _

theorem IntersectDivisor_ray (y : Int) (Point1 Point2 : Point) :
    IntersectDivisor ⟨0, 1, -y⟩ Point1 Point2 =
      if Point1.y = y ∧ Point2.y = y ∧ Point2.x - Point1.x = 1 then none
      else some (Point2.y - Point1.y) := by
  unfold IntersectDivisor line.eq line.fromPoints Det
  simp only
  have h2 : ¬ |(0 : Int) * (Point2.x - Point1.x) - 1 * (Point1.y - Point2.y)| < 0 :=
    not_lt.2 (abs_nonneg _)
  simp only [h2, if_false]
  by_cases h : Point1.y = y ∧ Point2.y = y ∧ Point2.x - Point1.x = 1
  · obtain ⟨ha, hb, hc⟩ := h
    simp [ha, hb, hc]
  · rw [if_neg h, if_neg]
    · congr 1
      ring
    · simp only [Bool.and_eq_true, decide_eq_true_eq, not_and]
      rintro ⟨hA, hB⟩ hC
      rw [← hA, ← hB] at hC
      simp only [mul_zero, mul_one, zero_sub, neg_inj] at hC
      apply h
      omega

theorem IntersectRes_y (cv : IntConv) (y : Int) (Point1 Point2 : Point)
    (h : Point1.y ≠ Point2.y) : (IntersectRes cv ⟨0, 1, -y⟩ Point1 Point2).y = y := by
  unfold IntersectRes quotToInt line.fromPoints Det
  simp only
  have hA : (0 : Int) * (Point2.x - Point1.x) - 1 * (Point1.y - Point2.y) ≠ 0 := by
    intro h0
    apply h
    omega
  rw [if_neg hA]
  have e : -((0 : Int) * (-Point1.x * (Point1.y - Point2.y) - Point1.y * (Point2.x - Point1.x)) -
      -y * (Point1.y - Point2.y)) =
      y * (0 * (Point2.x - Point1.x) - 1 * (Point1.y - Point2.y)) := by ring
  rw [e, Int.mul_tdiv_cancel _ hA]

theorem IntersectRes_x_end (cv : IntConv) (Point1 Point2 : Point)
    (h : Point1.y ≠ Point2.y) : (IntersectRes cv ⟨0, 1, -Point2.y⟩ Point1 Point2).x = Point2.x := by
  unfold IntersectRes quotToInt line.fromPoints Det
  simp only
  have hA : (0 : Int) * (Point2.x - Point1.x) - 1 * (Point1.y - Point2.y) ≠ 0 := by
    intro h0
    apply h
    omega
  rw [if_neg hA]
  have e : -(-Point2.y * (Point2.x - Point1.x) -
      1 * (-Point1.x * (Point1.y - Point2.y) - Point1.y * (Point2.x - Point1.x))) =
      Point2.x * (0 * (Point2.x - Point1.x) - 1 * (Point1.y - Point2.y)) := by ring
  rw [e, Int.mul_tdiv_cancel _ hA]

/-! ## line -/

/-- C13. For all integer points `p1`, `p2`, `line(p1, p2)` has `A = y1 - y2`, `B = x2 - x1`,
`C = -x1*A - y1*B`; both points satisfy `A*x + B*y + C = 0`; and an integer point `(x, y)`
satisfies the equation if and only if `(x2 - x1)*(y - y1) - (y2 - y1)*(x - x1) = 0`. -/
theorem line_fromPoints_through (p1 p2 : Point) :
    ((line.fromPoints p1 p2).A = p1.y - p2.y ∧ (line.fromPoints p1 p2).B = p2.x - p1.x ∧
        (line.fromPoints p1 p2).C =
          -p1.x * (line.fromPoints p1 p2).A - p1.y * (line.fromPoints p1 p2).B) ∧
      (line.fromPoints p1 p2).A * p1.x + (line.fromPoints p1 p2).B * p1.y +
          (line.fromPoints p1 p2).C = 0 ∧
      (line.fromPoints p1 p2).A * p2.x + (line.fromPoints p1 p2).B * p2.y +
          (line.fromPoints p1 p2).C = 0 ∧
      ∀ x y : Int,
        (line.fromPoints p1 p2).A * x + (line.fromPoints p1 p2).B * y +
            (line.fromPoints p1 p2).C = 0 ↔
          (p2.x - p1.x) * (y - p1.y) - (p2.y - p1.y) * (x - p1.x) = 0 := by
  refine ⟨⟨rfl, rfl, rfl⟩, ?_, ?_, ?_⟩ <;> simp only [line.fromPoints]
  · ring
  · ring
  intro x y
  have e : (p1.y - p2.y) * x + (p2.x - p1.x) * y +
      (-p1.x * (p1.y - p2.y) - p1.y * (p2.x - p1.x)) =
      (p2.x - p1.x) * (y - p1.y) - (p2.y - p1.y) * (x - p1.x) := by ring
  rw [e]

/-! ## The early returns of Polygon::Intersect -/

theorem line_eq_ray_iff (y : Int) (Point1 Point2 : Point) :
    line.eq ⟨0, 1, -y⟩ (line.fromPoints Point1 Point2) = true ↔
      Point1.y = y ∧ Point2.y = y ∧ Point2.x - Point1.x = 1 := by
  unfold line.eq line.fromPoints
  simp only [Bool.and_eq_true, decide_eq_true_eq]
  constructor
  · rintro ⟨⟨hA, hB⟩, hC⟩
    rw [← hA, ← hB] at hC
    simp only [mul_zero, mul_one, zero_sub, neg_inj] at hC
    omega
  · rintro ⟨h1, h2, h3⟩
    refine ⟨⟨by omega, by omega⟩, ?_⟩
    rw [h1, h2, h3]
    ring

/-- C16. The early return `line1 == line2` of `Intersect`, with the ray line `(0, 1, -y)`,
fires if and only if `P1.y = P2.y = y` and `P2.x - P1.x = 1`; a horizontal edge on the ray's
row with `P2.x - P1.x != 1` is not skipped by it and goes on to the divisions with `zn = 0`. -/
theorem Intersect_ray_skip_iff (y : Int) (Point1 Point2 : Point) :
    (line.eq ⟨0, 1, -y⟩ (line.fromPoints Point1 Point2) = true ↔
        Point1.y = y ∧ Point2.y = y ∧ Point2.x - Point1.x = 1) ∧
      (IntersectDivisor ⟨0, 1, -y⟩ Point1 Point2 = none ↔
        Point1.y = y ∧ Point2.y = y ∧ Point2.x - Point1.x = 1) ∧
      (Point1.y = y ∧ Point2.y = y ∧ Point2.x - Point1.x ≠ 1 →
        line.eq ⟨0, 1, -y⟩ (line.fromPoints Point1 Point2) = false ∧
          IntersectDivisor ⟨0, 1, -y⟩ Point1 Point2 = some 0) := by
  refine ⟨line_eq_ray_iff y Point1 Point2, ?_, ?_⟩
  · rw [IntersectDivisor_ray]
    split_ifs with h
    · simp [h]
    · simp [h]
  · rintro ⟨h1, h2, h3⟩
    constructor
    · rw [Bool.eq_false_iff]
      intro h
      exact h3 ((line_eq_ray_iff y Point1 Point2).1 h).2.2
    · rw [IntersectDivisor_ray, if_neg (fun h => h3 h.2.2), h1, h2, sub_self]

/-- C14, on the code. For a horizontal edge `(x1, y0) -> (x2, y0)` and the ray of row `y`,
`Intersect` returns before its divisions only when `y0 = y` and `x2 - x1 = 1`; in every other
case it divides by `zn = 0`, as for the edge `(0,0) -> (10,0)` of the square at row 5. With
the AArch64 conversion the edge `(0,0) -> (10,0)` is even counted at the pixel `(10,0)`. -/
theorem Intersect_divides_by_zero (x1 x2 y0 y : Int) :
    IntersectDivisor ⟨0, 1, -y⟩ ⟨x1, y0⟩ ⟨x2, y0⟩ =
        (if y0 = y ∧ x2 - x1 = 1 then none else some 0) ∧
      IntersectDivisor ⟨0, 1, -5⟩ ⟨0, 0⟩ ⟨10, 0⟩ = some 0 ∧
      Intersect aarch64 10 0 ⟨0, 1, 0⟩ ⟨0, 0⟩ ⟨10, 0⟩ = true := by
  refine ⟨?_, by decide, by decide⟩
  rw [IntersectDivisor_ray]
  by_cases h : y0 = y ∧ x2 - x1 = 1
  · rw [if_pos h, if_pos ⟨h.1, h.1, h.2⟩]
  · rw [if_neg h, if_neg (fun h' => h ⟨h'.1, h'.2.2⟩)]
    simp

/-! ## The crossing count -/

theorem foldl_count {α : Type} (f : α → Bool) (l : List α) (a : Int) :
    l.foldl (fun cnt e => if f e = true then cnt + 1 else cnt) a = a + (l.countP f : Int) := by
  induction l generalizing a with
  | nil => simp
  | cons e l ih =>
    rw [List.foldl_cons, ih]
    cases h : f e
    · simp [List.countP_cons_of_neg, h]
    · simp only [if_true, List.countP_cons_of_pos _ _ h, Nat.cast_add, Nat.cast_one]
      ring

/-- The counter of `InPolygon` is the number of edges for which `Intersect` is true. -/
theorem crossings_eq_countP (cv : IntConv) (edges : List Segment) (x y : Int) :
    crossings cv edges x y =
      (edges.countP (fun e => Intersect cv x y ⟨0, 1, -y⟩ e.Point1 e.Point2) : Int) := by
  unfold crossings
  simp only
  rw [foldl_count (fun e : Segment => Intersect cv x y ⟨0, 1, -y⟩ e.Point1 e.Point2)]
  simp

/-- `Intersect` accepts only edges with `Point1 <= Point2` in both coordinates. -/
theorem Intersect_ascending (cv : IntConv) (x y : Int) (line1 : line) (Point1 Point2 : Point)
    (h : Intersect cv x y line1 Point1 Point2 = true) :
    Point1.x ≤ Point2.x ∧ Point1.y ≤ Point2.y := by
  rw [Intersect_eq_res] at h
  cases hd : IntersectDivisor line1 Point1 Point2 with
  | none => rw [hd] at h; exact Bool.noConfusion h
  | some zn =>
    rw [hd] at h
    simp only [Bool.and_eq_true, decide_eq_true_eq, ge_iff_le] at h
    obtain ⟨⟨⟨⟨h1, h2⟩, h3⟩, h4⟩, -⟩ := h
    exact ⟨le_trans h1 h2, le_trans h3 h4⟩

/-- For an edge that is not horizontal, `Intersect` on the ray of row `y` is true exactly
when the edge goes up to that row and not to the left. -/
theorem Intersect_ray_iff (cv : IntConv) (x y : Int) (Point1 Point2 : Point)
    (h : Point1.y ≠ Point2.y) :
    Intersect cv x y ⟨0, 1, -y⟩ Point1 Point2 = true ↔
      Point1.y < Point2.y ∧ y = Point2.y ∧ Point1.x ≤ Point2.x := by
  have hd : IntersectDivisor ⟨0, 1, -y⟩ Point1 Point2 = some (Point2.y - Point1.y) := by
    rw [IntersectDivisor_ray, if_neg]
    rintro ⟨h1, h2, -⟩
    exact h (h1.trans h2.symm)
  rw [Intersect_eq_res, hd]
  simp only [IntersectRes_y cv y Point1 Point2 h, Bool.and_eq_true, decide_eq_true_eq,
    ge_iff_le, gt_iff_lt, lt_self_iff_false, decide_False, beq_iff_eq]
  constructor
  · rintro ⟨⟨⟨⟨h1, h2⟩, h3⟩, h4⟩, -, h6⟩
    have h7 : ¬ y < Point2.y := by
      intro hlt
      rw [decide_eq_true hlt] at h6
      exact Bool.noConfusion h6
    have hy : y = Point2.y := by omega
    refine ⟨?_, hy, le_trans h1 h2⟩
    rw [hy] at h3
    exact lt_of_le_of_ne h3 h
  · rintro ⟨h1, rfl, h3⟩
    rw [IntersectRes_x_end cv Point1 Point2 h]
    simp only [le_refl, and_true, lt_self_iff_false, decide_False]
    exact ⟨h3, h1.le⟩

/-! ## Edge orientation -/

/-- C15. For every pixel and every edge with `P1.x > P2.x` or `P1.y > P2.y`, `Intersect` is
false (whatever line it is given, and whatever the conversion), and the edge adds nothing to
the crossing count of `InPolygon`: the count is that of the edge list without it. -/
theorem Intersect_false_of_descending (cv : IntConv) (x y : Int) (line1 : line)
    (Point1 Point2 : Point) (h : Point1.x > Point2.x ∨ Point1.y > Point2.y) :
    Intersect cv x y line1 Point1 Point2 = false ∧
      ∀ before after : List Segment,
        crossings cv (before ++ ⟨Point1, Point2⟩ :: after) x y =
          crossings cv (before ++ after) x y := by
  have hfalse : ∀ l : line, Intersect cv x y l Point1 Point2 = false := by
    intro l
    rw [Bool.eq_false_iff]
    intro ht
    have := Intersect_ascending cv x y l Point1 Point2 ht
    omega
  refine ⟨hfalse line1, ?_⟩
  intro before after
  rw [crossings_eq_countP, crossings_eq_countP, List.countP_append, List.countP_append,
    List.countP_cons_of_neg]
  rw [hfalse]
  exact Bool.false_ne_true

/-- Witness of C15: the left edge `(0,10) -> (0,0)` of the square runs from top to bottom and
is never counted. -/
theorem Intersect_false_of_descending_square :
    Intersect x86 5 5 ⟨0, 1, -5⟩ ⟨0, 10⟩ ⟨0, 0⟩ = false ∧
      ∀ before after : List Segment,
        crossings x86 (before ++ ⟨⟨0, 10⟩, ⟨0, 0⟩⟩ :: after) 5 5 =
          crossings x86 (before ++ after) 5 5 :=
  Intersect_false_of_descending x86 5 5 ⟨0, 1, -5⟩ ⟨0, 10⟩ ⟨0, 0⟩ (Or.inr (by decide))

/-! ## The acceptance condition of Polygon::Intersect -/

/-- C19. For every pixel `(x, y)` and every edge with `P1.y != P2.y`, the intersection point
has `res.y = y`, and `Intersect(x, y, line(0,1,-y), P1, P2)` is true if and only if
`P1.y < P2.y`, `y = P2.y` and `P1.x <= P2.x`; the result is the same for every `x`. -/
theorem Intersect_nonhorizontal (cv : IntConv) (x y : Int) (Point1 Point2 : Point)
    (h : Point1.y ≠ Point2.y) :
    (IntersectRes cv ⟨0, 1, -y⟩ Point1 Point2).y = y ∧
      (Intersect cv x y ⟨0, 1, -y⟩ Point1 Point2 = true ↔
        Point1.y < Point2.y ∧ y = Point2.y ∧ Point1.x ≤ Point2.x) ∧
      ∀ x' : Int,
        Intersect cv x' y ⟨0, 1, -y⟩ Point1 Point2 =
          Intersect cv x y ⟨0, 1, -y⟩ Point1 Point2 := by
  refine ⟨IntersectRes_y cv y Point1 Point2 h, Intersect_ray_iff cv x y Point1 Point2 h, ?_⟩
  intro x'
  rw [Bool.eq_iff_iff, Intersect_ray_iff cv x' y Point1 Point2 h,
    Intersect_ray_iff cv x y Point1 Point2 h]

/-- Witness of C19: the right edge `(10,0) -> (10,10)` of the square, at the pixel `(5,5)`. -/
theorem Intersect_nonhorizontal_square :
    (IntersectRes x86 ⟨0, 1, -5⟩ ⟨10, 0⟩ ⟨10, 10⟩).y = 5 ∧
      (Intersect x86 5 5 ⟨0, 1, -5⟩ ⟨10, 0⟩ ⟨10, 10⟩ = true ↔
        (0 : Int) < 10 ∧ (5 : Int) = 10 ∧ (10 : Int) ≤ 10) ∧
      ∀ x' : Int,
        Intersect x86 x' 5 ⟨0, 1, -5⟩ ⟨10, 0⟩ ⟨10, 10⟩ =
          Intersect x86 5 5 ⟨0, 1, -5⟩ ⟨10, 0⟩ ⟨10, 10⟩ :=
  Intersect_nonhorizontal x86 5 5 ⟨10, 0⟩ ⟨10, 10⟩ (by decide)

/-! ## Membership on polygons without horizontal edges -/

theorem crossings_nonhorizontal (cv : IntConv) (edges : List Segment) (x y : Int)
    (h : ∀ e ∈ edges, e.Point1.y ≠ e.Point2.y) :
    crossings cv edges x y =
      (edges.countP (fun e =>
        decide (e.Point1.y < e.Point2.y ∧ y = e.Point2.y ∧ e.Point1.x ≤ e.Point2.x)) : Int) := by
  rw [crossings_eq_countP]
  congr 1
  apply List.countP_congr
  intro e he
  rw [Intersect_ray_iff cv x y e.Point1 e.Point2 (h e he)]
  simp

/-- In exact arithmetic: for every polygon with no horizontal edge, `InPolygon(x, y)` has the
same value for all `x`, it is false whenever no edge has `Point2.y = y`, and `Polygon::Draw`
makes no call on such a row. The machine's test is `InPolygon32` (`InPolygon32_ignores_x`). -/
theorem InPolygon_ignores_x (cv : IntConv) (p : Polygon)
    (h : ∀ e ∈ p.Edges, e.Point1.y ≠ e.Point2.y) :
    (∀ x x' y : Int, p.InPolygon cv x y = p.InPolygon cv x' y) ∧
      (∀ x y : Int, (∀ e ∈ p.Edges, e.Point2.y ≠ y) → p.InPolygon cv x y = false) ∧
      ∀ y : Int, (∀ e ∈ p.Edges, e.Point2.y ≠ y) → ∀ px ∈ p.Draw cv, px.y ≠ y := by
  have hrow : ∀ x y : Int, (∀ e ∈ p.Edges, e.Point2.y ≠ y) → p.InPolygon cv x y = false := by
    intro x y hy
    unfold Polygon.InPolygon
    rw [crossings_nonhorizontal cv p.Edges x y h]
    have h0 : p.Edges.countP (fun e =>
        decide (e.Point1.y < e.Point2.y ∧ y = e.Point2.y ∧ e.Point1.x ≤ e.Point2.x)) = 0 := by
      rw [List.countP_eq_zero]
      intro e he
      simp only [decide_eq_true_eq, not_and]
      intro _ hye
      exact absurd hye.symm (hy e he)
    rw [h0]
    rfl
  refine ⟨?_, hrow, ?_⟩
  · intro x x' y
    unfold Polygon.InPolygon
    rw [crossings_nonhorizontal cv p.Edges x y h, crossings_nonhorizontal cv p.Edges x' y h]
  · intro y hy px hpx hpy
    have hin := ((p.mem_Draw cv px).1 hpx).2.2.1
    rw [hpy, hrow px.x y hy] at hin
    exact Bool.noConfusion hin

/-- In exact arithmetic, on the two-edge loop `(0,0) -> (3,3) -> (0,0)`. -/
theorem InPolygon_ignores_x_sliver :
    (∀ x x' y : Int, sliverPolygon.InPolygon x86 x y = sliverPolygon.InPolygon x86 x' y) ∧
      (∀ x y : Int, (∀ e ∈ sliverPolygon.Edges, e.Point2.y ≠ y) →
        sliverPolygon.InPolygon x86 x y = false) ∧
      ∀ y : Int, (∀ e ∈ sliverPolygon.Edges, e.Point2.y ≠ y) →
        ∀ px ∈ sliverPolygon.Draw x86, px.y ≠ y :=
  InPolygon_ignores_x x86 sliverPolygon (by decide)

/-! ## Degenerate polygons -/

theorem sliverPolygon_constructed :
    Polygon.new ⟨255, 0, 0⟩ ⟨0, 0, 0⟩ 1 10 10 sliverEdges = .ok sliverPolygon := rfl

/-- C12, on the code. The constructor accepts the two-edge loop `(0,0) -> (3,3) -> (0,0)` on a
10 x 10 canvas, and `Polygon::Draw` then makes four calls, on the row `y = 3`: the edge
`(0,0) -> (3,3)` is counted there and the edge `(3,3) -> (0,0)` never is. -/
theorem sliver_Draw_nonempty (cv : IntConv) :
    Polygon.new ⟨255, 0, 0⟩ ⟨0, 0, 0⟩ 1 10 10 sliverEdges = .ok sliverPolygon ∧
      sliverPolygon.Draw cv =
        [⟨0, 3, (255, 0, 0)⟩, ⟨1, 3, (255, 0, 0)⟩, ⟨2, 3, (0, 0, 0)⟩, ⟨3, 3, (0, 0, 0)⟩] ∧
      Intersect cv 0 3 ⟨0, 1, -3⟩ ⟨0, 0⟩ ⟨3, 3⟩ = true ∧
      Intersect cv 0 3 ⟨0, 1, -3⟩ ⟨3, 3⟩ ⟨0, 0⟩ = false :=
  ⟨rfl, rfl, rfl, rfl⟩

/-! ## At most one call per pixel -/

theorem nodup_flatMap_of_key {α β : Type} (key : β → α) (l : List α) (f : α → List β)
    (hl : l.Nodup) (hf : ∀ a, (f a).Nodup) (hkey : ∀ a, ∀ b ∈ f a, key b = a) :
    (l.flatMap f).Nodup := by
  rw [List.nodup_flatMap]
  refine ⟨fun a _ => hf a, ?_⟩
  refine List.Pairwise.imp ?_ hl
  intro a1 a2 hne
  simp only [Function.onFun]
  intro b hb1 hb2
  exact hne ((hkey a1 b hb1).symm.trans (hkey a2 b hb2))

theorem intRange_nodup (lo hi : Int) : (intRange lo hi).Nodup := by
  unfold intRange
  apply List.Nodup.map _ (List.nodup_range _)
  intro a b hab
  simp only at hab
  omega

theorem scan_coords_nodup (xs ys : List Int) (hx : xs.Nodup) (hy : ys.Nodup)
    (f : Int → Int → List PixelCall) (hlen : ∀ x y, (f x y).length ≤ 1)
    (hf : ∀ x y, ∀ px ∈ f x y, px.x = x ∧ px.y = y) :
    ((xs.flatMap (fun x => ys.flatMap (fun y => f x y))).map PixelCall.coord).Nodup := by
  simp only [List.map_flatMap]
  apply nodup_flatMap_of_key Prod.fst xs _ hx
  · intro x
    apply nodup_flatMap_of_key Prod.snd ys _ hy
    · intro y
      have h1 := hlen x y
      match hxy : f x y with
      | [] => simp
      | [a] => simp
      | a :: b :: rest => rw [hxy] at h1; simp at h1
    · intro y b hb
      obtain ⟨px, hpx, rfl⟩ := List.mem_map.1 hb
      exact (hf x y px hpx).2
  · intro x b hb
    obtain ⟨y, -, hby⟩ := List.mem_flatMap.1 hb
    obtain ⟨px, hpx, rfl⟩ := List.mem_map.1 hby
    exact (hf x y px hpx).1

theorem Circle.circle_callsAt_length (c : Circle) (x y : Int) : (c.callsAt x y).length ≤ 1 := by
  unfold Circle.callsAt Circle.drawPixelAt
  split_ifs <;> simp

theorem Polygon.callsAt_length (cv : IntConv) (p : Polygon) (x y : Int) :
    (p.callsAt cv x y).length ≤ 1 := by
  unfold Polygon.callsAt Polygon.drawPixelAt
  split_ifs <;> simp

/-- C11. A single `Draw` of a circle or of a polygon never calls `DrawPixel` twice with the
same `(x, y)`: the list of the coordinates of its calls has no duplicates. -/
theorem Draw_coords_nodup (cv : IntConv) (c : Circle) (p : Polygon) :
    (c.Draw.map PixelCall.coord).Nodup ∧ ((p.Draw cv).map PixelCall.coord).Nodup := by
  constructor
  · rw [Circle.circle_Draw_eq]
    apply scan_coords_nodup _ _ (intRange_nodup _ _) (intRange_nodup _ _)
    · exact c.circle_callsAt_length
    · intro x y px hpx
      have h := (c.mem_circle_callsAt x y px).1 hpx
      exact ⟨h.1, h.2.1⟩
  · rw [Polygon.Draw_eq]
    apply scan_coords_nodup _ _ (intRange_nodup _ _) (intRange_nodup _ _)
    · exact p.callsAt_length cv
    · intro x y px hpx
      have h := (p.mem_callsAt cv x y px).1 hpx
      exact ⟨h.1, h.2.1⟩

/-! ## The border test -/

theorem isBorderLoop_iff (w x y : Int) (edges : List Segment) :
    isBorderLoop w x y edges = true ↔
      ∃ e ∈ edges, CountDistLe x y (line.fromPoints e.Point1 e.Point2) w = true := by
  induction edges with
  | nil => simp [isBorderLoop]
  | cons e rest ih =>
    rw [isBorderLoop]
    by_cases h : CountDistLe x y (line.fromPoints e.Point1 e.Point2) w = true
    · rw [if_pos h]
      simp only [true_iff]
      exact ⟨e, List.mem_cons_self _ _, h⟩
    · rw [if_neg h, ih]
      constructor
      · rintro ⟨e2, he2, h2⟩
        exact ⟨e2, List.mem_cons_of_mem _ he2, h2⟩
      · rintro ⟨e2, he2, h2⟩
        rcases List.mem_cons.1 he2 with rfl | hmem
        · exact absurd h2 h
        · exact ⟨e2, hmem, h2⟩

theorem line_fromPoints_normal_ne_zero (p1 p2 : Point) (h : p1 ≠ p2) :
    (line.fromPoints p1 p2).A * (line.fromPoints p1 p2).A +
      (line.fromPoints p1 p2).B * (line.fromPoints p1 p2).B ≠ 0 := by
  simp only [line.fromPoints]
  intro h0
  apply h
  have hA : p1.y - p2.y = 0 := by nlinarith [mul_self_nonneg (p1.y - p2.y), mul_self_nonneg (p2.x - p1.x)]
  have hB : p2.x - p1.x = 0 := by nlinarith [mul_self_nonneg (p1.y - p2.y), mul_self_nonneg (p2.x - p1.x)]
  cases p1
  cases p2
  simp only [Point.mk.injEq] at *
  omega

theorem CountDistLe_iff_sq (x y : Int) (l : line) (w : Int) (hw : 0 ≤ w)
    (hl : l.A * l.A + l.B * l.B ≠ 0) :
    CountDistLe x y l w = true ↔
      (l.A * x + l.B * y + l.C) ^ 2 ≤ w ^ 2 * (l.A ^ 2 + l.B ^ 2) := by
  unfold CountDistLe
  simp only [if_neg hl, Bool.and_eq_true, decide_eq_true_eq, hw, true_and]
  rw [abs_mul_abs_self]
  constructor
  · intro h
    calc (l.A * x + l.B * y + l.C) ^ 2 = (l.A * x + l.B * y + l.C) * (l.A * x + l.B * y + l.C) := by ring
      _ ≤ w * w * (l.A * l.A + l.B * l.B) := h
      _ = w ^ 2 * (l.A ^ 2 + l.B ^ 2) := by ring
  · intro h
    calc (l.A * x + l.B * y + l.C) * (l.A * x + l.B * y + l.C) = (l.A * x + l.B * y + l.C) ^ 2 := by ring
      _ ≤ w ^ 2 * (l.A ^ 2 + l.B ^ 2) := h
      _ = w * w * (l.A * l.A + l.B * l.B) := by ring

/-- In exact arithmetic: for `BorderWidth = w >= 0` and a polygon whose edges all have
`P1 != P2`, `IsBorder(x, y)` is true if and only if the line `(A, B, C)` of some edge has
`(A*x + B*y + C)^2 <= w^2 * (A^2 + B^2)`, which is `|A*x + B*y + C| / sqrt(A^2 + B^2) <= w`
over the reals; so a pixel collinear with an edge is a border pixel. The machine's test is
`IsBorder32` (`IsBorder32_line_distance`). -/
theorem IsBorder_iff_line_distance (p : Polygon) (x y : Int) (hw : 0 ≤ p.BorderWidth)
    (hne : ∀ e ∈ p.Edges, e.Point1 ≠ e.Point2) :
    (p.IsBorder x y = true ↔
        ∃ e ∈ p.Edges,
          ((line.fromPoints e.Point1 e.Point2).A * x + (line.fromPoints e.Point1 e.Point2).B * y +
              (line.fromPoints e.Point1 e.Point2).C) ^ 2 ≤
            p.BorderWidth ^ 2 *
              ((line.fromPoints e.Point1 e.Point2).A ^ 2 +
                (line.fromPoints e.Point1 e.Point2).B ^ 2)) ∧
      (p.IsBorder x y = true ↔
        ∃ e ∈ p.Edges,
          ((|(line.fromPoints e.Point1 e.Point2).A * x +
                (line.fromPoints e.Point1 e.Point2).B * y +
                (line.fromPoints e.Point1 e.Point2).C| : Int) : ℝ) /
              Real.sqrt (((line.fromPoints e.Point1 e.Point2).A *
                  (line.fromPoints e.Point1 e.Point2).A +
                (line.fromPoints e.Point1 e.Point2).B *
                  (line.fromPoints e.Point1 e.Point2).B : Int) : ℝ) ≤
            (p.BorderWidth : ℝ)) ∧
      ((∃ e ∈ p.Edges,
          (e.Point2.x - e.Point1.x) * (y - e.Point1.y) -
            (e.Point2.y - e.Point1.y) * (x - e.Point1.x) = 0) →
        p.IsBorder x y = true) := by
  have h1 : p.IsBorder x y = true ↔
      ∃ e ∈ p.Edges,
        ((line.fromPoints e.Point1 e.Point2).A * x + (line.fromPoints e.Point1 e.Point2).B * y +
            (line.fromPoints e.Point1 e.Point2).C) ^ 2 ≤
          p.BorderWidth ^ 2 *
            ((line.fromPoints e.Point1 e.Point2).A ^ 2 +
              (line.fromPoints e.Point1 e.Point2).B ^ 2) := by
    unfold Polygon.IsBorder
    rw [isBorderLoop_iff]
    constructor
    · rintro ⟨e, he, h⟩
      exact ⟨e, he, (CountDistLe_iff_sq x y _ _ hw
        (line_fromPoints_normal_ne_zero _ _ (hne e he))).1 h⟩
    · rintro ⟨e, he, h⟩
      exact ⟨e, he, (CountDistLe_iff_sq x y _ _ hw
        (line_fromPoints_normal_ne_zero _ _ (hne e he))).2 h⟩
  refine ⟨h1, ?_, ?_⟩
  · unfold Polygon.IsBorder
    rw [isBorderLoop_iff]
    constructor
    · rintro ⟨e, he, h⟩
      exact ⟨e, he, ((CountDistLe_iff_real x y _ _).1 h).2⟩
    · rintro ⟨e, he, h⟩
      exact ⟨e, he, (CountDistLe_iff_real x y _ _).2
        ⟨line_fromPoints_normal_ne_zero _ _ (hne e he), h⟩⟩
  · rintro ⟨e, he, hcol⟩
    rw [h1]
    refine ⟨e, he, ?_⟩
    have e0 : (line.fromPoints e.Point1 e.Point2).A * x +
        (line.fromPoints e.Point1 e.Point2).B * y + (line.fromPoints e.Point1 e.Point2).C =
        (e.Point2.x - e.Point1.x) * (y - e.Point1.y) -
          (e.Point2.y - e.Point1.y) * (x - e.Point1.x) := by
      simp only [line.fromPoints]
      ring
    rw [e0, hcol]
    positivity

/-- In exact arithmetic, on the square with border width 1, the pixel `(15, 0)` beyond the
end of the edge `(0,0) -> (10,0)` is a border pixel. -/
theorem IsBorder_beyond_edge_square :
    squarePolygon.IsBorder 15 0 = true :=
  ((IsBorder_iff_line_distance squarePolygon 15 0 (by decide) (by decide)).2.2)
    ⟨⟨⟨0, 0⟩, ⟨10, 0⟩⟩, by decide, by decide⟩

/-! ## Traversal direction -/

theorem Polygon.new_ok_iff_not_broken (fc bc : Color) (w W H : Int) (edges : List Segment) :
    (∃ p, Polygon.new fc bc w W H edges = .ok p) ↔ ¬∃ i, brokenAt edges i := by
  have herr : (∃ msg, Polygon.new fc bc w W H edges = .error msg) ↔ ∃ i, brokenAt edges i := by
    rw [Polygon.new_error_iff, Polygon.scan_error_iff]
    constructor
    · rintro ⟨j, _, _, h3⟩
      exact ⟨j, h3⟩
    · rintro ⟨j, h3⟩
      have := brokenAt_lt edges j h3
      exact ⟨j, Nat.zero_le j, by omega, h3⟩
  rw [← herr]
  constructor
  · rintro ⟨p, hp⟩ ⟨msg, hmsg⟩
    rw [hp] at hmsg
    exact Except.noConfusion hmsg
  · intro hno
    rcases Polygon.new_total fc bc w W H edges with h | h
    · exact absurd h hno
    · exact h

theorem reverseLoop_length (edges : List Segment) :
    (reverseLoop edges).length = edges.length := by
  simp [reverseLoop]

theorem reverseLoop_getElem? (edges : List Segment) (k : Nat) (hk : k < edges.length) :
    (reverseLoop edges)[k]? = some (edges.get ⟨edges.length - 1 - k, by omega⟩).reversed := by
  unfold reverseLoop
  rw [List.getElem?_map, List.getElem?_reverse hk, List.getElem?_eq_getElem (by omega)]
  rfl

theorem reverseLoop_reverseLoop (edges : List Segment) :
    reverseLoop (reverseLoop edges) = edges := by
  unfold reverseLoop
  rw [← List.map_reverse, List.reverse_reverse, List.map_map]
  have : Segment.reversed ∘ Segment.reversed = id := by
    funext e
    rfl
  rw [this, List.map_id]

/-- A broken index of the reversed loop gives a broken index of the loop. -/
theorem brokenAt_of_reverseLoop (edges : List Segment) (i : Nat)
    (h : brokenAt (reverseLoop edges) i) : ∃ j, brokenAt edges j := by
  have hi : i < edges.length := by
    have := brokenAt_lt _ i h
    rwa [reverseLoop_length] at this
  have hm : (i + 1) % edges.length < edges.length := Nat.mod_lt _ (by omega)
  obtain ⟨a, b, ha, hb, hab⟩ := h
  rw [reverseLoop_length, reverseLoop_getElem? edges _ hm] at hb
  rw [reverseLoop_getElem? edges _ hi] at ha
  simp only [Option.some.injEq] at ha hb
  subst ha
  subst hb
  simp only [Segment.reversed] at hab
  refine ⟨edges.length - 1 - (i + 1) % edges.length, ?_⟩
  have hj : edges.length - 1 - (i + 1) % edges.length < edges.length := by omega
  have hnext : (edges.length - 1 - (i + 1) % edges.length + 1) % edges.length =
      edges.length - 1 - i := by
    by_cases hlast : i + 1 < edges.length
    · rw [Nat.mod_eq_of_lt hlast, Nat.mod_eq_of_lt (by omega)]
      omega
    · have hn : i + 1 = edges.length := by omega
      rw [← hn, Nat.mod_self]
      simp
  have hi2 : edges.length - 1 - i < edges.length := by omega
  refine ⟨edges.get ⟨edges.length - 1 - (i + 1) % edges.length, hj⟩,
    edges.get ⟨edges.length - 1 - i, hi2⟩, ?_, ?_, ?_⟩
  · rw [List.getElem?_eq_getElem hj]
    rfl
  · rw [hnext, List.getElem?_eq_getElem hi2]
    rfl
  · intro heq
    exact hab heq.symm

/-- C18. For every edge list, the constructor accepts it if and only if it accepts the same
loop traversed in the opposite direction (the edges in reverse order, each with `Point1` and
`Point2` swapped); it accepts the triangle `(0,0) -> (4,0) -> (0,4) -> (0,0)` and its
reversal `(0,0) -> (0,4) -> (4,0) -> (0,0)`. -/
theorem Polygon_new_accepts_reversed_iff (fc bc : Color) (w W H : Int) (edges : List Segment) :
    ((∃ p, Polygon.new fc bc w W H edges = .ok p) ↔
        ∃ p, Polygon.new fc bc w W H (reverseLoop edges) = .ok p) ∧
      reverseLoop triangleEdges =
        [⟨⟨0, 0⟩, ⟨0, 4⟩⟩, ⟨⟨0, 4⟩, ⟨4, 0⟩⟩, ⟨⟨4, 0⟩, ⟨0, 0⟩⟩] ∧
      (∃ p, Polygon.new fc bc w W H triangleEdges = .ok p) ∧
      ∃ p, Polygon.new fc bc w W H (reverseLoop triangleEdges) = .ok p := by
  have key : ∀ l : List Segment, (∃ p, Polygon.new fc bc w W H l = .ok p) ↔
      ∃ p, Polygon.new fc bc w W H (reverseLoop l) = .ok p := by
    intro l
    rw [Polygon.new_ok_iff_not_broken, Polygon.new_ok_iff_not_broken, not_iff_not]
    constructor
    · rintro ⟨i, hi⟩
      apply brokenAt_of_reverseLoop (reverseLoop l) i
      rwa [reverseLoop_reverseLoop]
    · rintro ⟨i, hi⟩
      exact brokenAt_of_reverseLoop l i hi
  have htri : ∃ p, Polygon.new fc bc w W H triangleEdges = .ok p := by
    rw [Polygon.new_ok_iff_not_broken]
    rintro ⟨i, hi⟩
    have hlt := brokenAt_lt _ i hi
    have hlen : triangleEdges.length = 3 := rfl
    rw [hlen] at hlt
    rw [brokenAt_iff _ i (by rw [hlen]; exact hlt)] at hi
    interval_cases i <;> exact hi rfl
  exact ⟨key edges, rfl, htri, (key triangleEdges).1 htri⟩

/-! ## Machine arithmetic without overflow -/

theorem fits32_iff (v : Int) : fits32 v = true ↔ -2147483648 ≤ v ∧ v ≤ 2147483647 := by
  simp [fits32]

theorem wrap32_of_fits (v : Int) (h : fits32 v = true) : wrap32 v = v := by
  rw [fits32_iff] at h
  unfold wrap32
  omega

theorem fromPoints32_of_fits (a b : Point)
    (h1 : fits32 (a.y - b.y) = true) (h2 : fits32 (b.x - a.x) = true)
    (h3 : fits32 (-a.x) = true)
    (h4 : fits32 (-a.x * (line.fromPoints a b).A) = true)
    (h5 : fits32 (a.y * (line.fromPoints a b).B) = true)
    (h6 : fits32 (line.fromPoints a b).C = true) :
    line.fromPoints32 a b = line.fromPoints a b := by
  simp only [line.fromPoints] at h4 h5 h6
  simp only [line.fromPoints32, line.fromPoints]
  rw [wrap32_of_fits _ h1, wrap32_of_fits _ h2, wrap32_of_fits _ h3, wrap32_of_fits _ h4,
    wrap32_of_fits _ h5, wrap32_of_fits _ h6]

theorem Det32_of_fits (a b c d : Int) (h1 : fits32 (a * d) = true) (h2 : fits32 (b * c) = true)
    (h3 : fits32 (a * d - b * c) = true) : Det32 a b c d = Det a b c d := by
  unfold Det32 Det
  rw [wrap32_of_fits _ h1, wrap32_of_fits _ h2, wrap32_of_fits _ h3]

theorem tdiv_le_of_fits (num zn : Int) (h : fits32 num = true) (h' : fits32 (-num) = true) :
    Int.tdiv num zn ≤ 2147483647 := by
  rw [fits32_iff] at h h'
  have h1 : (Int.tdiv num zn).natAbs ≤ num.natAbs := by
    rw [Int.natAbs_tdiv]
    exact Nat.div_le_self _ _
  omega

theorem quotToInt32_of_fits (cv : IntConv) (num zn : Int) (h : fits32 num = true)
    (h' : fits32 (-num) = true) : quotToInt32 cv num zn = quotToInt cv num zn := by
  unfold quotToInt32 quotToInt
  have := tdiv_le_of_fits num zn h h'
  split_ifs <;> first | rfl | omega

/-- Without overflow, `Intersect` in 32-bit arithmetic is `Intersect` in exact arithmetic. -/
theorem Intersect32_of_fits (cv : IntConv) (x y : Int) (Point1 Point2 : Point)
    (h : IntersectFits y Point1 Point2 = true) :
    Intersect32 cv x y ⟨0, 1, wrap32 (-y)⟩ Point1 Point2 =
      Intersect cv x y ⟨0, 1, -y⟩ Point1 Point2 := by
  simp only [IntersectFits, Bool.and_eq_true] at h
  obtain ⟨⟨⟨⟨⟨⟨⟨⟨⟨⟨⟨⟨⟨hy, h1⟩, h2⟩, h3⟩, h4⟩, h5⟩, h6⟩, h7⟩, h8⟩, h9⟩, h10⟩, h11⟩, h12⟩, h13⟩ := h
  have hl := fromPoints32_of_fits Point1 Point2 h1 h2 h3 h4 h5 h6
  have hA : fits32 (line.fromPoints Point1 Point2).A = true := h1
  have hzero : fits32 0 = true := by decide
  have hd1 : Det32 0 1 (line.fromPoints Point1 Point2).A (line.fromPoints Point1 Point2).B =
      Det 0 1 (line.fromPoints Point1 Point2).A (line.fromPoints Point1 Point2).B :=
    Det32_of_fits _ _ _ _ (by rw [zero_mul]; exact hzero) (by rw [one_mul]; exact hA)
      (by rw [zero_mul]; exact h7)
  have hd2 : Det32 (-y) 1 (line.fromPoints Point1 Point2).C (line.fromPoints Point1 Point2).B =
      Det (-y) 1 (line.fromPoints Point1 Point2).C (line.fromPoints Point1 Point2).B :=
    Det32_of_fits _ _ _ _ h8 (by rw [one_mul]; exact h6) h9
  have hd3 : Det32 0 (-y) (line.fromPoints Point1 Point2).A (line.fromPoints Point1 Point2).C =
      Det 0 (-y) (line.fromPoints Point1 Point2).A (line.fromPoints Point1 Point2).C :=
    Det32_of_fits _ _ _ _ (by rw [zero_mul]; exact hzero) h11 (by rw [zero_mul]; exact h12)
  have hq1 : fits32 (Det (-y) 1 (line.fromPoints Point1 Point2).C
      (line.fromPoints Point1 Point2).B) = true := h9
  have hq2 : fits32 (Det 0 (-y) (line.fromPoints Point1 Point2).A
      (line.fromPoints Point1 Point2).C) = true := by
    unfold Det
    rw [zero_mul]
    exact h12
  have hq1' : fits32 (-Det (-y) 1 (line.fromPoints Point1 Point2).C
      (line.fromPoints Point1 Point2).B) = true := h10
  have hq2' : fits32 (-Det 0 (-y) (line.fromPoints Point1 Point2).A
      (line.fromPoints Point1 Point2).C) = true := by
    unfold Det
    rw [zero_mul]
    exact h13
  unfold Intersect32 Intersect
  simp only [wrap32_of_fits _ hy, hl, hd1, hd2, hd3]
  rw [quotToInt32_of_fits cv _ _ hq1' (by rw [neg_neg]; exact hq1),
    quotToInt32_of_fits cv _ _ hq2' (by rw [neg_neg]; exact hq2)]

theorem crossings32_of_fits (cv : IntConv) (edges : List Segment) (x y : Int)
    (h : ∀ e ∈ edges, IntersectFits y e.Point1 e.Point2 = true) :
    crossings32 cv edges x y = crossings cv edges x y := by
  rw [crossings_eq_countP]
  unfold crossings32
  simp only
  rw [foldl_count
    (fun e : Segment => Intersect32 cv x y ⟨0, 1, wrap32 (-y)⟩ e.Point1 e.Point2), zero_add]
  congr 1
  apply List.countP_congr
  intro e he
  rw [Intersect32_of_fits cv x y e.Point1 e.Point2 (h e he)]

/-! ## Polygon::Draw in machine arithmetic as a scan -/

theorem Polygon.drawPixelAt32_append (cv : IntConv) (p : Polygon) (x y : Int)
    (out : List PixelCall) : p.drawPixelAt32 cv x y out = out ++ p.callsAt32 cv x y := by
  unfold Polygon.callsAt32 Polygon.drawPixelAt32
  split_ifs <;> simp

theorem Polygon.Draw32_eq (cv : IntConv) (p : Polygon) :
    p.Draw32 cv = (intRange p.xStart p.xEnd).flatMap
      (fun x => (intRange p.yStart p.yEnd).flatMap (fun y => p.callsAt32 cv x y)) := by
  unfold Polygon.Draw32
  rw [forInt_append _
    (fun x => (intRange p.yStart p.yEnd).flatMap (fun y => p.callsAt32 cv x y))]
  · simp
  · intro x s
    exact forInt_append _ _ (fun y out => p.drawPixelAt32_append cv x y out) _ _ s

theorem Polygon.mem_callsAt32 (cv : IntConv) (p : Polygon) (x y : Int) (px : PixelCall) :
    px ∈ p.callsAt32 cv x y ↔
      px.x = x ∧ px.y = y ∧ p.InPolygon32 cv x y = true ∧
        px.color =
          if p.IsBorder32 x y then p.BorderColor.GetTuple else p.FillColor.GetTuple := by
  unfold Polygon.callsAt32 Polygon.drawPixelAt32
  rcases px with ⟨a, b, col⟩
  split_ifs <;> simp_all

/-- A call of `Polygon::Draw` in machine arithmetic: a box pixel that is in the polygon, with
its colour. -/
theorem Polygon.mem_Draw32 (cv : IntConv) (p : Polygon) (px : PixelCall) :
    px ∈ p.Draw32 cv ↔
      (p.xStart ≤ px.x ∧ px.x ≤ p.xEnd) ∧ (p.yStart ≤ px.y ∧ px.y ≤ p.yEnd) ∧
        p.InPolygon32 cv px.x px.y = true ∧
        px.color =
          if p.IsBorder32 px.x px.y then p.BorderColor.GetTuple
          else p.FillColor.GetTuple := by
  rw [Polygon.Draw32_eq]
  simp only [List.mem_flatMap, mem_intRange, Polygon.mem_callsAt32]
  constructor
  · rintro ⟨x, hx, y, hy, rfl, rfl, h⟩
    exact ⟨hx, hy, h⟩
  · rintro ⟨hx, hy, h⟩
    exact ⟨px.x, hx, px.y, hy, rfl, rfl, h⟩

/-! ## Membership in machine arithmetic -/

theorem Polygon.InPolygon32_of_fits (cv : IntConv) (p : Polygon) (x y : Int)
    (h : ∀ e ∈ p.Edges, IntersectFits y e.Point1 e.Point2 = true) :
    p.InPolygon32 cv x y = p.InPolygon cv x y := by
  unfold Polygon.InPolygon32 Polygon.InPolygon
  rw [crossings32_of_fits cv p.Edges x y h]

/-- C20, as amended. For every polygon with no horizontal edge and every row `y` on which no
`int` operation of `Intersect` overflows for any edge, `InPolygon(x, y)` in machine arithmetic
has the same value for all `x`, it is false when no edge has `Point2.y = y`, and
`Polygon::Draw` then makes no call on that row. -/
theorem InPolygon32_ignores_x (cv : IntConv) (p : Polygon) (y : Int)
    (hno : ∀ e ∈ p.Edges, e.Point1.y ≠ e.Point2.y)
    (hfit : ∀ e ∈ p.Edges, IntersectFits y e.Point1 e.Point2 = true) :
    (∀ x x' : Int, p.InPolygon32 cv x y = p.InPolygon32 cv x' y) ∧
      ((∀ e ∈ p.Edges, e.Point2.y ≠ y) → ∀ x : Int, p.InPolygon32 cv x y = false) ∧
      ((∀ e ∈ p.Edges, e.Point2.y ≠ y) → ∀ px ∈ p.Draw32 cv, px.y ≠ y) := by
  have hrow : (∀ e ∈ p.Edges, e.Point2.y ≠ y) → ∀ x : Int, p.InPolygon32 cv x y = false := by
    intro hy x
    rw [p.InPolygon32_of_fits cv x y hfit]
    unfold Polygon.InPolygon
    rw [crossings_nonhorizontal cv p.Edges x y hno]
    have h0 : p.Edges.countP (fun e =>
        decide (e.Point1.y < e.Point2.y ∧ y = e.Point2.y ∧ e.Point1.x ≤ e.Point2.x)) = 0 := by
      rw [List.countP_eq_zero]
      intro e he
      simp only [decide_eq_true_eq, not_and]
      intro _ hye
      exact absurd hye.symm (hy e he)
    rw [h0]
    rfl
  refine ⟨?_, hrow, ?_⟩
  · intro x x'
    rw [p.InPolygon32_of_fits cv x y hfit, p.InPolygon32_of_fits cv x' y hfit]
    unfold Polygon.InPolygon
    rw [crossings_nonhorizontal cv p.Edges x y hno, crossings_nonhorizontal cv p.Edges x' y hno]
  · intro hy px hpx hpy
    have hin := ((p.mem_Draw32 cv px).1 hpx).2.2.1
    rw [hpy, hrow hy px.x] at hin
    exact Bool.noConfusion hin

/-- Witness of C20 as amended, on the two-edge loop `(0,0) -> (3,3) -> (0,0)` at row 2. -/
theorem InPolygon32_ignores_x_sliver :
    (∀ x x' : Int, sliverPolygon.InPolygon32 x86 x 2 = sliverPolygon.InPolygon32 x86 x' 2) ∧
      ((∀ e ∈ sliverPolygon.Edges, e.Point2.y ≠ 2) →
        ∀ x : Int, sliverPolygon.InPolygon32 x86 x 2 = false) ∧
      ((∀ e ∈ sliverPolygon.Edges, e.Point2.y ≠ 2) →
        ∀ px ∈ sliverPolygon.Draw32 x86, px.y ≠ 2) :=
  InPolygon32_ignores_x x86 sliverPolygon 2 (by decide) (by decide)

theorem wideLoop_constructed :
    Polygon.new ⟨255, 0, 0⟩ ⟨0, 0, 0⟩ 1 100000 100 wideLoopEdges = .ok wideLoop := rfl

/-- C20 as stated fails in the arithmetic of the machine. The constructor accepts the loop
`(0,-50000) -> (85850,50) -> (0,-50000)`, which has no horizontal edge; in `line(P1, P2)` the
product `a.y * B = -50000 * 85850` is below the `int` range, and on row 50 `InPolygon(35, 50)`
is true while `InPolygon(36, 50)` is false. -/
theorem InPolygon32_depends_on_x :
    Polygon.new ⟨255, 0, 0⟩ ⟨0, 0, 0⟩ 1 100000 100 wideLoopEdges = .ok wideLoop ∧
      (∀ e ∈ wideLoop.Edges, e.Point1.y ≠ e.Point2.y) ∧
      wideLoop.InPolygon32 x86 35 50 = true ∧ wideLoop.InPolygon32 x86 36 50 = false ∧
      wideLoop.InPolygon32 aarch64 35 50 = true ∧ wideLoop.InPolygon32 aarch64 36 50 = false ∧
      ¬∀ x x' : Int, wideLoop.InPolygon32 x86 x 50 = wideLoop.InPolygon32 x86 x' 50 := by
  refine ⟨rfl, by decide, by decide, by decide, by decide, by decide, ?_⟩
  intro h
  have h1 : wideLoop.InPolygon32 x86 35 50 = true := by decide
  have h2 : wideLoop.InPolygon32 x86 36 50 = false := by decide
  rw [h 35 36, h2] at h1
  exact Bool.noConfusion h1

/-! ## Rounding to a double -/

theorem thinTriangle_constructed :
    Polygon.new ⟨255, 0, 0⟩ ⟨0, 0, 0⟩ 1680 50000 10000 thinTriangleEdges = .ok thinTriangle :=
  rfl

set_option maxRecDepth 100000 in
/-- On the square and on the two-edge loop the machine's arithmetic gives what the exact
arithmetic gives: the centre `(5,5)` and the edge pixel `(5,0)` of the square are not in the
polygon, the square is drawn as its row `y = 10`, and the two-edge loop as its row `y = 3`. -/
theorem examples_in_machine_arithmetic :
    squarePolygon.InPolygon32 x86 5 5 = false ∧ squarePolygon.InPolygon32 aarch64 5 5 = false ∧
      squarePolygon.InPolygon32 x86 5 0 = false ∧
      squarePolygon.InPolygon32 aarch64 5 0 = false ∧
      squarePolygon.Draw32 x86 = squarePolygon.Draw x86 ∧
      sliverPolygon.Draw32 x86 = sliverPolygon.Draw x86 ∧
      sliverPolygon.Draw32 aarch64 = sliverPolygon.Draw aarch64 := by
  decide

end Example
